import Mathlib

/-!
Verification of the journald-plus log-driver core against its specification.

The Go sources are shallowly embedded: byte slices become `List Nat`
(each element the value of one `uint8`), Go strings that originate from
byte slices stay byte lists, machine integers become `Int`/`Nat` with
explicit two's-complement reduction where Go converts between widths,
maps become association lists (Go maps have unique keys; only keyed
lookup, insert and delete are used by the embedded code), and fallible
code returns `Except`/`Option`.  Compiled regular expressions, whose
construction is outside the embedded fragment, are modelled by their
matching functions; concrete instances used in example runs are defined
as executable functions and documented next to their pattern.
-/

set_option maxHeartbeats 1000000

namespace JournaldPlus

/-- Bytes of the producer stream and of Go byte slices, as `uint8` values. -/
abbrev Byte := Nat

/-- Go strings that came from byte slices are kept as their byte lists. -/
abbrev GoString := List Byte

/-- Byte list of an ASCII string literal, used only to write concrete inputs. -/
def ascii (s : String) : List Nat :=
  s.data.map Char.toNat

/-- First value stored under a key in an association list (Go map lookup). -/
def alookup {α β : Type} [DecidableEq α] : List (α × β) → α → Option β
  | [], _ => none
  | (k', v) :: rest, k => if k' = k then some v else alookup rest k

/-- Store a value under a key, replacing an existing binding (Go map assignment).
Lists built from `[]` by `aset` have pairwise distinct keys, like a Go map. -/
def aset {α β : Type} [DecidableEq α] : List (α × β) → α → β → List (α × β)
  | [], k, v => [(k, v)]
  | (k', v') :: rest, k, v =>
    if k' = k then (k, v) :: rest else (k', v') :: aset rest k v

/-- Delete every binding of a key (Go map `delete`; bindings are unique anyway). -/
def aremove {α β : Type} [DecidableEq α] (l : List (α × β)) (k : α) : List (α × β) :=
  l.filter (fun p => decide (p.1 ≠ k))

/-- Two's-complement reading of a `uint64` value as Go `int64`
(the `int64(v)` conversion in `unmarshalLogEntry`). -/
def toInt64 (v : Nat) : Int :=
  let m : Nat := v % 2 ^ 64
  if m < 2 ^ 63 then (m : Int) else (m : Int) - 2 ^ 64

/-- Two's-complement reading of a `uint64` value as Go `int32`
(the `int32(v)` conversion in `unmarshalPartialMeta`). -/
def toInt32 (v : Nat) : Int :=
  let m : Nat := v % 2 ^ 32
  if m < 2 ^ 31 then (m : Int) else (m : Int) - 2 ^ 32

/-! ## Framed-record decoder (`driver/proto.go`) -/

/-- `partialLogMetadata` from `proto.go`: fragment-group metadata. -/
structure partialLogMetadata where
  Last : Bool
  ID : GoString
  Ordinal : Int
deriving DecidableEq

/-- `logEntry` from `proto.go`: one decoded log record. -/
structure logEntry where
  Source : GoString
  TimeNano : Int
  Line : List Byte
  Partial : Bool
  PartialLogMetadata : Option partialLogMetadata
deriving DecidableEq

/-- The Go zero value of `logEntry` (all-default record). -/
def defaultLogEntry : logEntry :=
  { Source := [], TimeNano := 0, Line := [], Partial := false,
    PartialLogMetadata := none }

/-- Loop of `decodeVarint` from `proto.go`.  `i` is the index of the next
byte, `s` the current shift, `x` the accumulator; the returned second
component is the number of bytes consumed, `0` meaning failure.  The
`% 2 ^ 64` keeps the `uint64` arithmetic exact. -/
def decodeVarintAux : List Byte → Nat → Nat → Nat → Nat × Nat
  | [], _, _, _ => (0, 0)
  | b :: rest, i, s, x =>
    if 10 ≤ i then (0, 0)
    else if b < 0x80 then ((x ||| (b <<< s) % 2 ^ 64) % 2 ^ 64, i + 1)
    else decodeVarintAux rest (i + 1) (s + 7)
      ((x ||| ((b &&& 0x7f) <<< s) % 2 ^ 64) % 2 ^ 64)

/-- `decodeVarint` from `proto.go`. -/
def decodeVarint (data : List Byte) : Nat × Nat :=
  decodeVarintAux data 0 0 0

/-- `decodeBytes` from `proto.go`: a length varint followed by that many bytes. -/
def decodeBytes (data : List Byte) : Except String (List Byte × List Byte) :=
  let vn := decodeVarint data
  if vn.2 = 0 then .error "bad varint for length"
  else
    let rest := data.drop vn.2
    if rest.length < vn.1 then .error "not enough data"
    else .ok (rest.take vn.1, rest.drop vn.1)

/-- `skipField` from `proto.go`: skip one field of an unknown number. -/
def skipField (data : List Byte) (wireType : Nat) : Except String (List Byte) :=
  if wireType = 0 then
    let vn := decodeVarint data
    if vn.2 = 0 then .error "bad varint" else .ok (data.drop vn.2)
  else if wireType = 1 then
    if data.length < 8 then .error "not enough data for 64-bit field"
    else .ok (data.drop 8)
  else if wireType = 2 then
    match decodeBytes data with
    | .error e => .error e
    | .ok sr => .ok sr.2
  else if wireType = 5 then
    if data.length < 4 then .error "not enough data for 32-bit field"
    else .ok (data.drop 4)
  else .error "unknown wire type"

/-- Result of an unmarshal loop.  `fuelOut` is the extra outcome of the
fuelled embedding; the termination theorem shows it never occurs when the
fuel is at least the length of the input. -/
inductive URes (α : Type) where
  | ok (a : α)
  | err (msg : String)
  | fuelOut
deriving DecidableEq

/-- `unmarshalPartialMeta` from `proto.go`, with explicit fuel bounding the
number of loop iterations.  Each iteration consumes the tag varint (at
least one byte), so `data.length` fuel always suffices. -/
def unmarshalPartialMetaFuel : Nat → List Byte → partialLogMetadata →
    URes partialLogMetadata
  | _, [], m => .ok m
  | 0, _ :: _, _ => .fuelOut
  | fuel + 1, b :: bs, m =>
    let data := b :: bs
    let tn := decodeVarint data
    if tn.2 = 0 then .err "bad varint in tag"
    else
      let data1 := data.drop tn.2
      let fieldNumber := tn.1 >>> 3
      let wireType := tn.1 &&& 0x7
      if fieldNumber = 1 then
        if wireType ≠ 0 then .err "unexpected wire type for last"
        else
          let vn := decodeVarint data1
          if vn.2 = 0 then .err "bad varint for last"
          else unmarshalPartialMetaFuel fuel (data1.drop vn.2)
            { m with Last := vn.1 != 0 }
      else if fieldNumber = 2 then
        if wireType ≠ 2 then .err "unexpected wire type for id"
        else
          match decodeBytes data1 with
          | .error e => .err e
          | .ok sr => unmarshalPartialMetaFuel fuel sr.2 { m with ID := sr.1 }
      else if fieldNumber = 3 then
        if wireType ≠ 0 then .err "unexpected wire type for ordinal"
        else
          let vn := decodeVarint data1
          if vn.2 = 0 then .err "bad varint for ordinal"
          else unmarshalPartialMetaFuel fuel (data1.drop vn.2)
            { m with Ordinal := toInt32 vn.1 }
      else
        match skipField data1 wireType with
        | .error e => .err e
        | .ok rest => unmarshalPartialMetaFuel fuel rest m

/-- `unmarshalPartialMeta` with the adequate fuel `data.length`. -/
def unmarshalPartialMeta (data : List Byte) (m : partialLogMetadata) :
    URes partialLogMetadata :=
  unmarshalPartialMetaFuel data.length data m

/-- `unmarshalLogEntry` from `proto.go`, with explicit fuel bounding the
number of loop iterations. -/
def unmarshalLogEntryFuel : Nat → List Byte → logEntry → URes logEntry
  | _, [], e => .ok e
  | 0, _ :: _, _ => .fuelOut
  | fuel + 1, b :: bs, e =>
    let data := b :: bs
    let tn := decodeVarint data
    if tn.2 = 0 then .err "bad varint in tag"
    else
      let data1 := data.drop tn.2
      let fieldNumber := tn.1 >>> 3
      let wireType := tn.1 &&& 0x7
      if fieldNumber = 1 then
        if wireType ≠ 2 then .err "unexpected wire type for source"
        else
          match decodeBytes data1 with
          | .error _ => .err "decoding source"
          | .ok sr => unmarshalLogEntryFuel fuel sr.2 { e with Source := sr.1 }
      else if fieldNumber = 2 then
        if wireType ≠ 0 then .err "unexpected wire type for time_nano"
        else
          let vn := decodeVarint data1
          if vn.2 = 0 then .err "bad varint for time_nano"
          else unmarshalLogEntryFuel fuel (data1.drop vn.2)
            { e with TimeNano := toInt64 vn.1 }
      else if fieldNumber = 3 then
        if wireType ≠ 2 then .err "unexpected wire type for line"
        else
          match decodeBytes data1 with
          | .error _ => .err "decoding line"
          | .ok sr => unmarshalLogEntryFuel fuel sr.2 { e with Line := sr.1 }
      else if fieldNumber = 4 then
        if wireType ≠ 0 then .err "unexpected wire type for partial"
        else
          let vn := decodeVarint data1
          if vn.2 = 0 then .err "bad varint for partial"
          else unmarshalLogEntryFuel fuel (data1.drop vn.2)
            { e with Partial := vn.1 != 0 }
      else if fieldNumber = 5 then
        if wireType ≠ 2 then .err "unexpected wire type for partial_log_metadata"
        else
          match decodeBytes data1 with
          | .error _ => .err "decoding partial_log_metadata"
          | .ok sr =>
            match unmarshalPartialMeta sr.1
                { Last := false, ID := [], Ordinal := 0 } with
            | .err _ => .err "decoding partial metadata"
            | .fuelOut => .fuelOut
            | .ok meta => unmarshalLogEntryFuel fuel sr.2
                { e with PartialLogMetadata := some meta }
      else
        match skipField data1 wireType with
        | .error e2 => .err e2
        | .ok rest => unmarshalLogEntryFuel fuel rest e

/-- `unmarshalLogEntry` with the adequate fuel `data.length`. -/
def unmarshalLogEntry (data : List Byte) (e : logEntry) : URes logEntry :=
  unmarshalLogEntryFuel data.length data e

/-- Result of `logEntryDecoder.decode` on a byte stream: a decoded record
and the remaining stream, end of stream before the length prefix (`io.EOF`),
a short read (`io.ErrUnexpectedEOF` from `io.ReadFull`), or a decode error. -/
inductive DecodeResult where
  | ok (entry : logEntry) (rest : List Byte)
  | eof
  | errShort
  | errBad (msg : String)
deriving DecidableEq

/-- `binary.BigEndian.Uint32` of four stream bytes. -/
def bigEndianU32 (b0 b1 b2 b3 : Byte) : Nat :=
  ((b0 % 256) <<< 24) ||| ((b1 % 256) <<< 16) ||| ((b2 % 256) <<< 8) ||| (b3 % 256)

/-- The record value produced by the reset block of `decode`
(`entry.Line[:0]` empties the line buffer, so every field is overwritten). -/
def resetEntry : logEntry := defaultLogEntry

/-- `logEntryDecoder.decode` from `proto.go`, on an explicit byte stream.
The decoder reads a 4-byte big-endian length; a zero length returns `nil`
at once, before the reset block, so the caller's record is returned
unchanged.  For a nonzero length it reads the frame, resets the record and
unmarshals. -/
def decode (entry : logEntry) (stream : List Byte) : DecodeResult :=
  match stream with
  | [] => .eof
  | b0 :: b1 :: b2 :: b3 :: rest =>
    let size := bigEndianU32 b0 b1 b2 b3
    if size = 0 then .ok entry rest
    else if rest.length < size then .errShort
    else
      match unmarshalLogEntry (rest.take size) resetEntry with
      | .ok e => .ok e (rest.drop size)
      | .err msg => .errBad msg
      | .fuelOut => .errBad "unreachable"
  | _ => .errShort

/-! ## Fragment reassembler (`partialAssembler` in the driver sources) -/

/-- `partialPart`: one buffered fragment.  `ordinal` and `data` are the
fields the code stores; `psource`/`ptimeNano` are specification-only ghost
fields recording which record the fragment came from.  The assembly logic
never reads them. -/
structure partialPart where
  ordinal : Int
  data : List Byte
  psource : GoString
  ptimeNano : Int
deriving DecidableEq

/-- `partialGroup`: buffered state of one fragment group. -/
structure partialGroup where
  source : GoString
  timeNano : Int
  parts : List partialPart
deriving DecidableEq

/-- The group table of a `partialAssembler` (`map[string]*partialGroup`). -/
abbrev PAGroups := List (GoString × partialGroup)

/-- One reassembled line as handed to the multiline merger, together with
ghost data: the buffered fragments in arrival order and whether the line
came from a partial group. -/
structure ReassembledOut where
  line : List Byte
  source : GoString
  timeNano : Int
  gparts : List partialPart
  fromPartial : Bool
deriving DecidableEq

/-- The fragment appended by `partialAssembler.Add` for one partial record
(the code copies the ordinal and the line bytes; the ghost fields record
the record's source and time). -/
def mkPart (e : logEntry) (m : partialLogMetadata) : partialPart :=
  { ordinal := m.Ordinal, data := e.Line, psource := e.Source,
    ptimeNano := e.TimeNano }

/-- The `g, ok := pa.groups[id]`/`if !ok` lookup-or-create step of
`partialAssembler.Add`: the stored group, or a fresh group capturing the
current record's source and time. -/
def groupOf (groups : PAGroups) (e : logEntry) (m : partialLogMetadata) :
    partialGroup :=
  match alookup groups m.ID with
  | some g => g
  | none => { source := e.Source, timeNano := e.TimeNano, parts := [] }

/-- `partialAssembler.Add`, parameterised by the sorting function used on
flush.  The Go code calls `sort.Slice` with the comparison
`parts[i].ordinal < parts[j].ordinal`; `sort.Slice` guarantees only that
the result is a permutation of the input that is nondecreasing in the
comparison (it is documented as not stable), so the call is modelled by a
parameter `sortFn` about which theorems assume exactly that guarantee
(`SortsByOrdinal`). -/
def partialAssembler.Add (sortFn : List partialPart → List partialPart)
    (groups : PAGroups) (e : logEntry) : PAGroups × Option ReassembledOut :=
  if e.Partial = false then
    (groups, some { line := e.Line, source := e.Source, timeNano := e.TimeNano,
                    gparts := [mkPart e { Last := false, ID := [], Ordinal := 0 }],
                    fromPartial := false })
  else
    match e.PartialLogMetadata with
    | none =>
      (groups, some { line := e.Line, source := e.Source, timeNano := e.TimeNano,
                      gparts := [mkPart e { Last := false, ID := [], Ordinal := 0 }],
                      fromPartial := false })
    | some m =>
      let g := groupOf groups e m
      let g' := { g with parts := g.parts ++ [mkPart e m] }
      if m.Last = false then
        (aset groups m.ID g', none)
      else
        let sorted := sortFn g'.parts
        let assembled := (sorted.map (fun p => p.data)).flatten
        (aremove (aset groups m.ID g') m.ID,
         some { line := assembled, source := g.source, timeNano := g.timeNano,
                gparts := g'.parts, fromPartial := true })

/-- Fold `partialAssembler.Add` over a record sequence from an empty table,
collecting the emitted lines. -/
def partialAssembler.run (sortFn : List partialPart → List partialPart)
    (entries : List logEntry) : PAGroups × List ReassembledOut :=
  entries.foldl
    (fun st e =>
      let r := partialAssembler.Add sortFn st.1 e
      (r.1, st.2 ++ r.2.toList))
    ([], [])

/-- The contract of `sort.Slice` with comparison
`parts[i].ordinal < parts[j].ordinal`: the output is a permutation of the
input, nondecreasing in `ordinal`.  Stability is deliberately not part of
the contract (`sort.Slice` is documented as not guaranteed to be stable). -/
def SortsByOrdinal (f : List partialPart → List partialPart) : Prop :=
  ∀ l : List partialPart, (f l).Perm l ∧
    (f l).Pairwise (fun p q => p.ordinal ≤ q.ordinal)

/-- Insert into a sorted fragment list, placing the new element before the
first element for which `lt` holds. -/
def insertPartBy (lt : partialPart → partialPart → Bool) (x : partialPart) :
    List partialPart → List partialPart
  | [] => [x]
  | y :: l => if lt x y then x :: y :: l else y :: insertPartBy lt x l

/-- Insertion sort over fragment lists with comparison `lt`. -/
def sortPartsBy (lt : partialPart → partialPart → Bool) :
    List partialPart → List partialPart
  | [] => []
  | x :: l => insertPartBy lt x (sortPartsBy lt l)

/-- Stable ordinal sort: fragments with equal ordinals keep arrival order. -/
def stableSortByOrdinal : List partialPart → List partialPart :=
  sortPartsBy (fun p q => decide (p.ordinal ≤ q.ordinal))

/-- An anti-stable ordinal sort: fragments with equal ordinals come out in
reversed arrival order.  It satisfies the `sort.Slice` contract
(`SortsByOrdinal`) just like the stable sort does. -/
def antiSortByOrdinal : List partialPart → List partialPart :=
  sortPartsBy (fun p q => decide (p.ordinal < q.ordinal))

/-! ## Multiline merger (`multilineMerger` in the driver sources) -/

/-- The merger-relevant configuration fields of `Config`.
`MultilineRegex` is `none` when merging is disabled; otherwise it is the
matching function of the compiled continuation regex (`Regex.Match`). -/
structure MergerCfg where
  MultilineRegex : Option (List Byte → Bool)
  MultilineMaxLines : Nat
  MultilineMaxBytes : Nat
  MultilineSep : List Byte

/-- `mergedMessage`, with a ghost field `glines` recording the constituent
lines of the merge in arrival order (the code keeps only the joined buffer). -/
structure mergedMessage where
  Line : List Byte
  Source : GoString
  TimeNano : Int
  glines : List (List Byte)
deriving DecidableEq

/-- Mutable state of `multilineMerger`: the byte buffer, line counter,
captured source/time and the has-data flag.  `glines` is the ghost list of
buffered constituent lines.  The flush timer only triggers `Flush`
transitions and carries no further state relevant to the claims. -/
structure MergerState where
  buf : List Byte
  lineCount : Nat
  source : GoString
  timeNano : Int
  hasData : Bool
  glines : List (List Byte)
deriving DecidableEq

/-- A fresh merger holds an empty buffer. -/
def initMergerState : MergerState :=
  { buf := [], lineCount := 0, source := [], timeNano := 0, hasData := false,
    glines := [] }

/-- `flushLocked`: emit a copy of the buffer if it holds data and clear the
state (source and time are left as they are, like in the code). -/
def flushLocked (st : MergerState) : MergerState × List mergedMessage :=
  if st.hasData = false then (st, [])
  else
    ({ st with
        buf := []
        lineCount := 0
        hasData := false
        glines := [] },
     [{ Line := st.buf, Source := st.source, TimeNano := st.timeNano,
        glines := st.glines }])

/-- Seed the buffer with a fresh line (the common tail of the three
branches of `AddLine` that start a new message). -/
def seedMerger (st : MergerState) (line : List Byte) (source : GoString)
    (timeNano : Int) : MergerState :=
  { st with
    buf := st.buf ++ line
    lineCount := 1
    source := source
    timeNano := timeNano
    hasData := true
    glines := [line] }

/-- `multilineMerger.AddLine`.  Returns the new state and the messages
emitted during the call (each call emits at most one message plus, for a
disabled merger, the pass-through message). -/
def multilineMerger.AddLine (cfg : MergerCfg) (st : MergerState)
    (line : List Byte) (source : GoString) (timeNano : Int) :
    MergerState × List mergedMessage :=
  match cfg.MultilineRegex with
  | none =>
    (st, [{ Line := line, Source := source, TimeNano := timeNano,
            glines := [line] }])
  | some isCont =>
    if isCont line = false then
      let r := flushLocked st
      (seedMerger r.1 line source timeNano, r.2)
    else if st.hasData = false then
      (seedMerger st line source timeNano, [])
    else if cfg.MultilineMaxLines ≤ st.lineCount ∨
        cfg.MultilineMaxBytes < st.buf.length + cfg.MultilineSep.length + line.length then
      let r := flushLocked st
      (seedMerger r.1 line source timeNano, r.2)
    else
      ({ st with
          buf := st.buf ++ cfg.MultilineSep ++ line
          lineCount := st.lineCount + 1
          glines := st.glines ++ [line] }, [])

/-- `multilineMerger.Flush` (also the body of the flush-timer callback,
which runs `flushLocked` under the same lock). -/
def multilineMerger.Flush (st : MergerState) : MergerState × List mergedMessage :=
  flushLocked st

/-- One serialised merger event: an `AddLine` call, or a `Flush`
(an explicit flush or a timer expiry; both take the merger lock and run
`flushLocked`). -/
inductive MergerOp where
  | add (line : List Byte) (source : GoString) (timeNano : Int)
  | flush
deriving DecidableEq

/-- Apply one merger event. -/
def mergerStep (cfg : MergerCfg) (st : MergerState) :
    MergerOp → MergerState × List mergedMessage
  | .add line source timeNano => multilineMerger.AddLine cfg st line source timeNano
  | .flush => multilineMerger.Flush st

/-- Fold a sequence of merger events from the initial state, collecting all
emitted messages. -/
def mergerRun (cfg : MergerCfg) (ops : List MergerOp) :
    MergerState × List mergedMessage :=
  ops.foldl
    (fun st op =>
      let r := mergerStep cfg st.1 op
      (r.1, st.2 ++ r.2))
    (initMergerState, [])

/-- The property claimed for every emitted message of an enabled merger:
its bytes are the separator-joined constituents, and it is either a single
line or all later constituents matched the continuation regex and both
caps hold. -/
def GoodMsg (cfg : MergerCfg) (isCont : List Byte → Bool)
    (m : mergedMessage) : Prop :=
  m.glines ≠ [] ∧
  m.Line = List.intercalate cfg.MultilineSep m.glines ∧
  (m.glines.length = 1 ∨
    ((∀ l ∈ m.glines.tail, isCont l = true) ∧
     m.glines.length ≤ cfg.MultilineMaxLines ∧
     m.Line.length ≤ cfg.MultilineMaxBytes))

/-! ## Severity classifier (`DetectPriority` in the driver sources) -/

/-- One configured `priorityMatcher`: a priority and the matching function
of its compiled regex (`Regex.Match`). -/
structure priorityMatcher where
  Priority : Nat
  regexMatch : List Byte → Bool

/-- The priority-relevant configuration fields of `Config`. -/
structure PriorityCfg where
  PriorityPrefixEnabled : Bool
  PriorityDefaultStdout : Nat
  PriorityDefaultStderr : Nat
  PriorityMatchers : List priorityMatcher

/-- The compiled regex `^<([0-7])>` together with the extraction performed
by `DetectPriority`: on a match, the digit value and the line with the
3-byte prefix removed (`firstLine[loc[1]:]`).  Byte 60 is `<`, 62 is `>`,
48–55 are the digits `0`–`7`. -/
def sdDaemonFind (line : List Byte) : Option (Nat × List Byte) :=
  match line with
  | lt :: d :: gt :: rest =>
    if lt = 60 ∧ 48 ≤ d ∧ d ≤ 55 ∧ gt = 62 then some (d - 48, rest) else none
  | _ => none

/-- The matcher loop of `DetectPriority`: first matching regex wins. -/
def matcherScan : List priorityMatcher → List Byte → Option Nat
  | [], _ => none
  | m :: ms, line => if m.regexMatch line then some m.Priority else matcherScan ms line

/-- `DetectPriority` from the driver sources: sd-daemon prefix (if
enabled), then the configured matchers in order, then the per-source
default.  Only the sd-daemon branch modifies the returned line. -/
def DetectPriority (cfg : PriorityCfg) (firstLine : List Byte)
    (source : GoString) : Nat × List Byte :=
  match cfg.PriorityPrefixEnabled, sdDaemonFind firstLine with
  | true, some nr => (nr.1, nr.2)
  | _, _ =>
    match matcherScan cfg.PriorityMatchers firstLine with
    | some p => (p, firstLine)
    | none =>
      if source = ascii "stderr" then (cfg.PriorityDefaultStderr, firstLine)
      else (cfg.PriorityDefaultStdout, firstLine)

/-! ## Timestamp stripper (`StripTimestamp` in the driver sources) -/

/-- A compiled timestamp pattern, modelled by its `Regexp.FindIndex`
function: the leftmost match as a start/end byte-offset pair, or `none`. -/
abbrev TsPattern := List Byte → Option (Nat × Nat)

/-- Membership in the character class of `trailingSep`, the regex
`^[\s:|\-]*`.  In Go regexps `\s` is `[\t\n\f\r ]` (bytes 9, 10, 12,
13, 32); `:` is 58, `|` is 124, `-` is 45. -/
def isSepByte (b : Byte) : Bool :=
  b == 9 || b == 10 || b == 12 || b == 13 || b == 32 || b == 58 || b == 124 || b == 45

/-- End offset of `trailingSep.FindIndex`: the greedy run `[\s:|\-]*`
matches at offset 0 and extends over the leading separator bytes. -/
def trailingSepLen (l : List Byte) : Nat :=
  (l.takeWhile isSepByte).length

/-- `StripTimestamp` from the driver sources.  Each pattern is tried with
`FindIndex`; on the first pattern that matches, the suffix after the match
end has the separator run removed and is returned if nonempty, otherwise
the original line is returned.  If no pattern matches, the original line
is returned. -/
def StripTimestamp (line : List Byte) : List TsPattern → List Byte
  | [] => line
  | re :: ps =>
    match re line with
    | none => StripTimestamp line ps
    | some se =>
      let rest := line.drop se.2
      let k := trailingSepLen rest
      let rest := if 0 < k then rest.drop k else rest
      if 0 < rest.length then rest else line

/-- The claim's reading of the algorithm: each pattern is tested anchored
at byte 0, a pattern whose leftmost match starts later is treated as not
matching, and the suffix rule applies to the first pattern matching at
byte 0. -/
def stripSpecAnchored (line : List Byte) : List TsPattern → List Byte
  | [] => line
  | re :: ps =>
    match re line with
    | some (0, e) =>
      let suffix := (line.drop e).dropWhile isSepByte
      if suffix.isEmpty then line else suffix
    | _ => stripSpecAnchored line ps
  

/-- The code's actual behaviour, stated spec-style: the first pattern with
a leftmost match anywhere decides; the suffix after that match's end, with
the separator run removed, is returned when nonempty. -/
def stripSpecLeftmost (line : List Byte) (ps : List TsPattern) : List Byte :=
  match ps.findSome? (fun re => re line) with
  | none => line
  | some se =>
    let suffix := (line.drop se.2).dropWhile isSepByte
    if suffix.isEmpty then line else suffix

/-- `FindIndex` of the Go regexp matching the single byte `b`: the
leftmost occurrence of `b`, as a start/end pair. -/
def findByteAux (b : Byte) : List Byte → Nat → Option (Nat × Nat)
  | [], _ => none
  | x :: xs, i => if x = b then some (i, i + 1) else findByteAux b xs (i + 1)

/-- Leftmost-occurrence pattern for one byte (models the regexp `b`). -/
def findBytePattern (b : Byte) : TsPattern :=
  fun line => findByteAux b line 0

/-! ## JSON body extractor (`ParseJSONLog` in the driver sources) -/

/-- A decoded JSON value as it matters to `ParseJSONLog`.  Strings,
booleans and null are exact.  A number is abstracted by the string
`formatFloat` renders for it, and a nested array/object by its compact
`json.Marshal` serialisation: the embedded code only ever inspects
string-ness and otherwise flattens the value to that rendering. -/
inductive JVal where
  | str (s : String)
  | boolv (b : Bool)
  | nullv
  | num (flat : String)
  | nested (flat : String)
deriving DecidableEq

/-- A top-level JSON object as produced by `json.Unmarshal` into
`map[string]interface{}`: an association list with distinct keys. -/
abbrev JObj := List (String × JVal)

/-- `JSONParsedLog` from the driver sources. -/
structure JSONParsedLog where
  Level : String
  Message : String
  ExtraFields : List (String × String)
deriving DecidableEq

/-- The JSON-relevant configuration fields of `Config`. -/
structure JSONCfg where
  ParseJSON : Bool
  JSONLevelKeys : List String
  JSONMessageKeys : List String
deriving DecidableEq

/-- The flattening switch of `ParseJSONLog` for the remaining fields:
strings pass through, booleans render as `true`/`false`, null is skipped,
numbers and nested values keep their injected rendering. -/
def flattenJVal : JVal → Option String
  | .str s => some s
  | .num f => some f
  | .boolv b => some (if b then "true" else "false")
  | .nullv => none
  | .nested f => some f

/-- The key-scan loop of `ParseJSONLog`: the first key in `keys` whose
value in `obj` is a string, with that string.  A key that is present with
a non-string value does not stop the scan. -/
def findStringKey (obj : JObj) : List String → Option (String × String)
  | [] => none
  | k :: ks =>
    match alookup obj k with
    | some (.str s) => some (k, s)
    | _ => findStringKey obj ks

/-- `ParseJSONLog` from the driver sources, parameterised by `u`, the model
of `json.Unmarshal` into `map[string]interface{}`: `u` returns the
decoded object for a byte slice holding a top-level JSON object (and the
empty object for `null`), and `none` when unmarshalling fails (parse error
or non-object value).  The function returns `none` ("not JSON") when
parsing is disabled, the line is empty, `u` fails, or the extracted
message is the empty string. -/
def ParseJSONLog (u : List Byte → Option JObj) (cfg : JSONCfg)
    (line : List Byte) : Option JSONParsedLog :=
  if cfg.ParseJSON = false ∨ line = [] then none
  else
    match u line with
    | none => none
    | some obj =>
      let lvl :=
        match findStringKey obj cfg.JSONLevelKeys with
        | some ks => (ks.2, aremove obj ks.1)
        | none => ("", obj)
      let msg :=
        match findStringKey lvl.2 cfg.JSONMessageKeys with
        | some ks => (ks.2, aremove lvl.2 ks.1)
        | none => ("", lvl.2)
      if msg.1 = "" then none
      else
        some { Level := lvl.1, Message := msg.1,
               ExtraFields := msg.2.filterMap
                 (fun kv => (flattenJVal kv.2).map (fun s => (kv.1, s))) }

/-! ## Field extractors and journal writer (`config.go`, `journal.go`) -/

/-- One configured `fieldExtractor`: the journal field name (the `field-`
key suffix) and the `Regexp.FindStringSubmatch` function of its compiled
regex, returning the first capture group on a match.  Configuration
validation guarantees at least one capture group, so a match always
carries a first capture. -/
structure fieldExtractor where
  FieldName : String
  find : List Char → Option (List Char)

/-- `Config.ExtractFields` from `config.go`: apply every extractor to the
message and collect the first captures of the matching ones.  (The Go
function returns `nil` rather than an empty map when nothing matches; both
are the empty collection here.) -/
def ExtractFields (extractors : List fieldExtractor) (message : List Char) :
    List (String × List Char) :=
  extractors.foldl
    (fun fields ex =>
      match ex.find message with
      | some cap => aset fields ex.FieldName cap
      | none => fields)
    []

/-- The per-rune mapping of `sanitizeFieldName`. -/
def sanitizeChar (r : Char) : Char :=
  if 97 ≤ r.toNat ∧ r.toNat ≤ 122 then Char.ofNat (r.toNat - 32)
  else if 65 ≤ r.toNat ∧ r.toNat ≤ 90 then r
  else if 48 ≤ r.toNat ∧ r.toNat ≤ 57 then r
  else Char.ofNat 95

/-- `sanitizeFieldName` from `journal.go`: uppercase ASCII letters and
digits survive, lowercase is uppercased, everything else becomes `_`, and
a leading digit gets a `_` prefix. -/
def sanitizeFieldName (name : String) : String :=
  let mapped := name.data.map sanitizeChar
  match mapped with
  | c :: _ =>
    if 48 ≤ c.toNat ∧ c.toNat ≤ 57 then String.mk (Char.ofNat 95 :: mapped)
    else String.mk mapped
  | [] => String.mk mapped

/-- `tagData` from `journal.go`. -/
structure tagData where
  ID : String
  FullID : String
  Name : String
  ImageName : String
  ImageID : String
  ImageFullID : String
  Command : String
  DaemonName : String

/-- `containerInfo` from `journal.go` (the fields the writer reads).
Lengths of these strings are taken as character counts; all concrete
instances in this development are ASCII, where Go's byte length agrees. -/
structure containerInfo where
  ContainerID : String
  ContainerName : String
  ContainerImageID : String
  ContainerImageName : String
  DaemonName : String
  ContainerEntrypoint : String
  ContainerArgs : List String
  ContainerEnv : List String
  ContainerLabels : List (String × String)

/-- `newTagData` from `journal.go`. -/
def newTagData (info : containerInfo) : tagData :=
  let id12 := if 12 ≤ info.ContainerID.length then info.ContainerID.take 12 else ""
  let imgID :=
    if 12 ≤ info.ContainerImageID.length then
      let t :=
        if info.ContainerImageID.startsWith "sha256:" then
          info.ContainerImageID.drop 7
        else info.ContainerImageID
      if 12 ≤ t.length then t.take 12 else ""
    else ""
  let cmd :=
    if 0 < info.ContainerArgs.length then
      info.ContainerEntrypoint ++ " " ++ String.intercalate " " info.ContainerArgs
    else info.ContainerEntrypoint
  { ID := id12
    FullID := info.ContainerID
    Name := if info.ContainerName.startsWith "/" then info.ContainerName.drop 1
            else info.ContainerName
    ImageName := info.ContainerImageName
    ImageID := imgID
    ImageFullID := info.ContainerImageID
    Command := cmd
    DaemonName := info.DaemonName }

/-- The default tag template `{{.Name}}`. -/
def defaultTagTemplate : String := "\x7b\x7b.Name\x7d\x7d"

/-- Whether a tag contains the template delimiter `{{`
(`strings.Contains(tagTmpl, ...)` in `renderTag`). -/
def hasDoubleLBrace : List Char → Bool
  | c1 :: c2 :: rest =>
    (c1.toNat == 123 && c2.toNat == 123) || hasDoubleLBrace (c2 :: rest)
  | _ => false

/-- `renderTag` from `journal.go`, parameterised by `execTemplate`, the
model of parsing and executing a Go text template (`none` = error).  The
empty tag falls back to the default template, and a tag without `{{`
is used literally without consulting the template engine. -/
def renderTag (execTemplate : String → tagData → Option String)
    (tagTmpl : String) (td : tagData) : Option String :=
  let t := if tagTmpl = "" then defaultTagTemplate else tagTmpl
  if hasDoubleLBrace t.data = false then some t
  else execTemplate t td

/-- The journal-relevant configuration fields of `Config`.  The two
regexes are modelled by their `MatchString` functions. -/
structure JournalCfg where
  Tag : String
  Labels : List String
  LabelsRegex : Option (String → Bool)
  Env : List String
  EnvRegex : Option (String → Bool)

/-- `journalWriter.addFilteredFields` from `journal.go`: keep the entries
whose key is listed or matches the regex, sanitised.  (Go iterates the
source map in unspecified order; the association-list order stands in for
one such order.) -/
def addFilteredFields (vars : List (String × String))
    (source : List (String × String)) (keys : List String)
    (re : Option (String → Bool)) : List (String × String) :=
  if keys.isEmpty && re.isNone then vars
  else
    source.foldl
      (fun vs kv =>
        if keys.contains kv.1 ||
            (match re with | some r => r kv.1 | none => false) then
          aset vs (sanitizeFieldName kv.1) kv.2
        else vs)
      vars

/-- `strings.Cut(e, "=")` as used for environment entries. -/
def goCutEq (s : String) : Option (String × String) :=
  match List.findIdx? (fun c => c.toNat == 61) s.data with
  | some i => some (String.mk (s.data.take i), String.mk (s.data.drop (i + 1)))
  | none => none

/-- `journalWriter.buildBaseVars` from `journal.go`: container metadata,
the rendered tag, and the selected labels and environment variables.
Returns `none` when tag rendering fails (pipeline construction fails). -/
def buildBaseVars (execTemplate : String → tagData → Option String)
    (cfg : JournalCfg) (info : containerInfo) :
    Option (List (String × String)) :=
  let td := newTagData info
  let vars := aset (aset (aset (aset ([] : List (String × String))
    "CONTAINER_ID" td.ID) "CONTAINER_ID_FULL" td.FullID)
    "CONTAINER_NAME" td.Name) "IMAGE_NAME" td.ImageName
  match renderTag execTemplate cfg.Tag td with
  | none => none
  | some tag =>
    let vars := aset (aset vars "CONTAINER_TAG" tag) "SYSLOG_IDENTIFIER" tag
    let vars := addFilteredFields vars info.ContainerLabels cfg.Labels cfg.LabelsRegex
    let envMap := info.ContainerEnv.foldl
      (fun m e => match goCutEq e with
        | some kv => aset m kv.1 kv.2
        | none => m)
      []
    let vars := addFilteredFields vars envMap cfg.Env cfg.EnvRegex
    some vars

/-- The test `!time.Unix(0, msg.TimeNano).IsZero()` from
`journalWriter.Write`, reduced to arithmetic.  `time.Unix(0, nsec)`
normalises to Unix seconds `⌊nsec/1e9⌋` and nanoseconds `nsec mod 1e9`
(Go's adjustment loop computes exactly the floored division and Euclidean
remainder), and `Time.IsZero` holds exactly for January 1, year 1, 00:00:00
UTC, i.e. Unix second `-62135596800` with nanosecond `0`. -/
def timeUnixIsZero (nsec : Int) : Bool :=
  nsec.ediv 1000000000 == -62135596800 && nsec.emod 1000000000 == 0

/-- `journalWriter.Write` from `journal.go`, as the field map handed to the
journal send function: the precomputed base fields, the `JSON_`-prefixed
sanitised JSON extras, and `SYSLOG_TIMESTAMP` guarded by the `IsZero`
test.  `rfc3339Nano` injects Go's `Format(time.RFC3339Nano)` rendering.
The body bytes and priority are passed to the sink unchanged and carry no
field information. -/
def journalWriter.Write (baseVars : List (String × String))
    (jsonFields : List (String × String)) (msgTimeNano : Int)
    (rfc3339Nano : Int → String) : List (String × String) :=
  let vars := baseVars
  let vars :=
    if 0 < jsonFields.length then
      jsonFields.foldl
        (fun vs kv => aset vs ("JSON_" ++ sanitizeFieldName kv.1) kv.2) vars
    else vars
  if timeUnixIsZero msgTimeNano = false then
    aset vars "SYSLOG_TIMESTAMP" (rfc3339Nano msgTimeNano)
  else vars

/-! ## Specification helpers and concrete inputs -/

/-- Invariant of the merger state, relative to an enabled continuation
regex: the ghost constituent list explains the buffer, the counter, the
match history and the caps. -/
def MInv (cfg : MergerCfg) (isCont : List Byte → Bool) (st : MergerState) : Prop :=
  (st.hasData = false → st.buf = [] ∧ st.lineCount = 0 ∧ st.glines = []) ∧
  (st.hasData = true →
    st.glines ≠ [] ∧
    st.lineCount = st.glines.length ∧
    st.buf = List.intercalate cfg.MultilineSep st.glines ∧
    (∀ l ∈ st.glines.tail, isCont l = true) ∧
    (2 ≤ st.glines.length →
      st.glines.length ≤ cfg.MultilineMaxLines ∧
      st.buf.length ≤ cfg.MultilineMaxBytes))

/-- Invariant of the reassembler table: every stored group has at least one
buffered fragment, and carries the source and time of its first-inserted
fragment. -/
def PAInv (groups : PAGroups) : Prop :=
  ∀ kg ∈ groups, ∃ p rest, kg.2.parts = p :: rest ∧
    kg.2.source = p.psource ∧ kg.2.timeNano = p.ptimeNano

/-- The level-key removal step of `ParseJSONLog`, as a function of the
decoded object. -/
def levelRemoved (cfg : JSONCfg) (obj : JObj) : JObj :=
  match findStringKey obj cfg.JSONLevelKeys with
  | some ks => aremove obj ks.1
  | none => obj

/-- The message scan of `ParseJSONLog`: the first message key (after level
removal) holding a string value, with that string. -/
def messageScanKey (cfg : JSONCfg) (obj : JObj) : Option (String × String) :=
  findStringKey (levelRemoved cfg obj) cfg.JSONMessageKeys

/-- The message scan produces the empty message: it finds no string
value at all, or the first string value it finds is empty. -/
def msgScanEmpty (cfg : JSONCfg) (obj : JObj) : Prop :=
  ∀ ks, messageScanKey cfg obj = some ks → ks.2 = ""

/-- A partial record for concrete runs. -/
def fragEntry (id : String) (ord : Int) (line : String) (last : Bool)
    (src : String) (t : Int) : logEntry :=
  { Source := ascii src, TimeNano := t, Line := ascii line, Partial := true,
    PartialLogMetadata := some { Last := last, ID := ascii id, Ordinal := ord } }

/-- Out-of-order fragment arrival: ordinal 2 first (time 1000), then
ordinal 0 (time 2000), then ordinal 1 with last set (time 3000). -/
def c2entries : List logEntry :=
  [fragEntry "x" 2 "C" false "stdout" 1000,
   fragEntry "x" 0 "A" false "stdout" 2000,
   fragEntry "x" 1 "B" true "stdout" 3000]

/-- The fragment of the `c2entries` group with the lowest ordinal. -/
def c2lowest : partialPart :=
  { ordinal := 0, data := ascii "A", psource := ascii "stdout", ptimeNano := 2000 }

/-- Two fragments with equal ordinals: A arrives before B. -/
def c9entries : List logEntry :=
  [fragEntry "g" 5 "A" false "stdout" 111,
   fragEntry "g" 5 "B" true "stdout" 222]

/-- The buffered fragments of the `c9entries` group, in arrival order. -/
def c9parts : List partialPart :=
  [{ ordinal := 5, data := ascii "A", psource := ascii "stdout", ptimeNano := 111 },
   { ordinal := 5, data := ascii "B", psource := ascii "stdout", ptimeNano := 222 }]

/-- The output of the out-of-order run `c2entries` (ghost fields
included): body `ABC`, metadata of the first-arrived fragment. -/
def c2out : ReassembledOut :=
  { line := ascii "ABC", source := ascii "stdout", timeNano := 1000,
    gparts :=
      [{ ordinal := 2, data := ascii "C", psource := ascii "stdout",
         ptimeNano := 1000 },
       { ordinal := 0, data := ascii "A", psource := ascii "stdout",
         ptimeNano := 2000 },
       { ordinal := 1, data := ascii "B", psource := ascii "stdout",
         ptimeNano := 3000 }],
    fromPartial := true }

/-- The first-arrived fragment of the `c2entries` group. -/
def c2firstPart : partialPart :=
  { ordinal := 2, data := ascii "C", psource := ascii "stdout",
    ptimeNano := 1000 }

/-- A single last-fragment record completing a fresh group. -/
def e9w : logEntry := fragEntry "z" 1 "QQ" true "stdout" 42

/-- The metadata of `e9w`. -/
def m9w : partialLogMetadata := { Last := true, ID := ascii "z", Ordinal := 1 }

/-- The output emitted for `e9w` on an empty table. -/
def c9wOut : ReassembledOut :=
  { line := ascii "QQ", source := ascii "stdout", timeNano := 42,
    gparts := [mkPart e9w m9w], fromPartial := true }

/-- A non-default output record handed to `decode`. -/
def dirtyEntry : logEntry :=
  { Source := ascii "stderr", TimeNano := 7, Line := ascii "x", Partial := true,
    PartialLogMetadata := some { Last := true, ID := ascii "q", Ordinal := 3 } }

/-- Matcher of the default continuation regex (one leading Go-regexp
whitespace byte: tab, newline, form feed, carriage return, space). -/
def startsWithWhitespace (l : List Byte) : Bool :=
  match l with
  | b :: _ => b == 9 || b == 10 || b == 12 || b == 13 || b == 32
  | [] => false

/-- A default-like merger configuration with the whitespace continuation
regex enabled. -/
def c6cfg : MergerCfg :=
  { MultilineRegex := some startsWithWhitespace, MultilineMaxLines := 100,
    MultilineMaxBytes := 1048576, MultilineSep := ascii "\n" }

/-- A two-line stack-trace-shaped event sequence followed by a flush. -/
def c6ops : List MergerOp :=
  [MergerOp.add (ascii "ERROR x") (ascii "stdout") 5,
   MergerOp.add (ascii " at y") (ascii "stdout") 6,
   MergerOp.flush]

/-- The message `c6ops` emits. -/
def c6msg : mergedMessage :=
  { Line := ascii "ERROR x\n at y", Source := ascii "stdout", TimeNano := 5,
    glines := [ascii "ERROR x", ascii " at y"] }

/-- Whether `pat` occurs as a contiguous run in a byte list. -/
def containsSeq (pat : List Byte) : List Byte → Bool
  | [] => pat.isEmpty
  | b :: rest => pat.isPrefixOf (b :: rest) || containsSeq pat rest

/-- Matcher of the literal regex ERROR (unanchored substring search). -/
def matchesERROR (l : List Byte) : Bool :=
  containsSeq (ascii "ERROR") l

/-- A priority configuration with defaults and one err matcher. -/
def c5cfg : PriorityCfg :=
  { PriorityPrefixEnabled := true, PriorityDefaultStdout := 6,
    PriorityDefaultStderr := 3,
    PriorityMatchers := [{ Priority := 3, regexMatch := matchesERROR }] }

/-- JSON configuration with the default key lists and parsing enabled. -/
def c7cfg : JSONCfg :=
  { ParseJSON := true, JSONLevelKeys := ["level", "severity", "log_level"],
    JSONMessageKeys := ["message", "msg", "log"] }

/-- The bytes of the JSON object text binding "message" to the empty string. -/
def c7lineCE : List Byte := ascii "\x7b\"message\":\"\"\x7d"

/-- The object `json.Unmarshal` decodes from `c7lineCE`. -/
def c7objCE : JObj := [("message", JVal.str "")]

/-- A pointwise model of `json.Unmarshal` defined on the one line the
counterexample uses (it agrees with the real unmarshaller there and
rejects everything else). -/
def u7c : List Byte → Option JObj :=
  fun l => if l = c7lineCE then some c7objCE else none

/-- The bytes of the JSON object text binding "level" to "warning",
"message" to "slow" and "trace_id" to "abc". -/
def c7lineW : List Byte :=
  ascii "\x7b\"level\":\"warning\",\"message\":\"slow\",\"trace_id\":\"abc\"\x7d"

/-- The object `json.Unmarshal` decodes from `c7lineW`. -/
def c7objW : JObj :=
  [("level", JVal.str "warning"), ("message", JVal.str "slow"),
   ("trace_id", JVal.str "abc")]

/-- A pointwise model of `json.Unmarshal` for the witness line. -/
def u7w : List Byte → Option JObj :=
  fun l => if l = c7lineW then some c7objW else none

/-- The parsed result of the witness line `c7lineW`. -/
def c7r : JSONParsedLog :=
  { Level := "warning", Message := "slow",
    ExtraFields := [("trace_id", "abc")] }

/-- ASCII class of lowercase letters and digits. -/
def isLowerOrDigit (c : Char) : Bool :=
  (97 ≤ c.toNat && c.toNat ≤ 122) || (48 ≤ c.toNat && c.toNat ≤ 57)

/-- ASCII digit class. -/
def isDigitCh (c : Char) : Bool :=
  48 ≤ c.toNat && c.toNat ≤ 57

/-- `FindStringSubmatch` for a regex of the shape literal-then-one-class-
capture (such as the field-extractor patterns below): leftmost-first match
position, greedy capture of at least one class character. -/
def findKeyCapture (keyLit : List Char) (cls : Char → Bool) :
    List Char → Option (List Char)
  | [] => none
  | c :: rest =>
    match
      (if keyLit.isPrefixOf (c :: rest) then
        (fun run => if run.isEmpty then none else some run)
          ((List.drop keyLit.length (c :: rest)).takeWhile cls)
      else none) with
    | some cap => some cap
    | none => findKeyCapture keyLit cls rest

/-- The extractors of the repository's own journal-writer field-extraction
test: field-REQUEST_ID capturing a lowercase/digit run after the literal
request_id=, and field-USER_ID capturing a digit run after user=. -/
def c1extractors : List fieldExtractor :=
  [{ FieldName := "REQUEST_ID",
     find := findKeyCapture "request_id=".data isLowerOrDigit },
   { FieldName := "USER_ID", find := findKeyCapture "user=".data isDigitCh }]

/-- The message body of the repository's field-extraction test. -/
def c1msg : List Char := "Processing request_id=abc123 for user=42".data

/-- Container metadata for the field-extraction scenario. -/
def c1info : containerInfo :=
  { ContainerID := "abcdef123456789012345678", ContainerName := "/testcontainer",
    ContainerImageID := "", ContainerImageName := "", DaemonName := "",
    ContainerEntrypoint := "", ContainerArgs := [], ContainerEnv := [],
    ContainerLabels := [] }

/-- Journal configuration with a literal tag and no label/env selection. -/
def c1jcfg : JournalCfg :=
  { Tag := "myapp", Labels := [], LabelsRegex := none, Env := [],
    EnvRegex := none }

/-- Template engine stub; never consulted for a literal tag. -/
def noTemplate : String → tagData → Option String := fun _ _ => none

/-- Injected RFC3339Nano rendering; the claims only concern presence. -/
def c1rfc : Int → String := fun _ => "1970-01-01T00:00:00Z"

/-! ## Helper lemmas -/

theorem alookup_aset_self {α β : Type} [DecidableEq α]
    (l : List (α × β)) (k : α) (v : β) : alookup (aset l k v) k = some v := by
  induction l with
  | nil => simp [aset, alookup]
  | cons p rest ih =>
    by_cases h : p.1 = k
    · simp [aset, h, alookup]
    · simp [aset, h, alookup, ih]

theorem alookup_aremove_self {α β : Type} [DecidableEq α]
    (l : List (α × β)) (k : α) : alookup (aremove l k) k = none := by
  induction l with
  | nil => simp [aremove, alookup]
  | cons p rest ih =>
    by_cases h : p.1 = k
    · simpa [aremove, h] using ih
    · simpa [aremove, List.filter_cons, h, alookup] using ih

theorem mem_aset {α β : Type} [DecidableEq α]
    {l : List (α × β)} {k : α} {v : β} {x : α × β}
    (hx : x ∈ aset l k v) : x ∈ l ∨ x = (k, v) := by
  induction l with
  | nil => simpa [aset] using hx
  | cons p rest ih =>
    by_cases h : p.1 = k
    · simp only [aset, h, if_pos rfl] at hx
      rcases List.mem_cons.mp hx with h1 | h1
      · right; exact h1
      · left; exact List.mem_cons_of_mem _ h1
    · simp only [aset, if_neg h] at hx
      rcases List.mem_cons.mp hx with h1 | h1
      · left; exact h1 ▸ List.mem_cons_self _ _
      · rcases ih h1 with h2 | h2
        · left; exact List.mem_cons_of_mem _ h2
        · right; exact h2

theorem mem_aremove {α β : Type} [DecidableEq α]
    {l : List (α × β)} {k : α} {x : α × β}
    (hx : x ∈ aremove l k) : x ∈ l :=
  List.mem_of_mem_filter hx

theorem mem_insertPartBy {lt : partialPart → partialPart → Bool}
    {x a : partialPart} : ∀ {l : List partialPart},
    a ∈ insertPartBy lt x l → a = x ∨ a ∈ l := by
  intro l
  induction l with
  | nil => intro h; simpa [insertPartBy] using h
  | cons y rest ih =>
    intro h
    by_cases hxy : lt x y
    · simp only [insertPartBy, hxy, if_pos] at h
      rcases List.mem_cons.mp h with h1 | h1
      · left; exact h1
      · right; exact h1
    · simp only [insertPartBy, hxy] at h
      rcases List.mem_cons.mp h with h1 | h1
      · right; exact h1 ▸ List.mem_cons_self _ _
      · rcases ih h1 with h2 | h2
        · left; exact h2
        · right; exact List.mem_cons_of_mem _ h2

theorem perm_insertPartBy (lt : partialPart → partialPart → Bool)
    (x : partialPart) : ∀ l : List partialPart,
    (insertPartBy lt x l).Perm (x :: l) := by
  intro l
  induction l with
  | nil => simp [insertPartBy]
  | cons y rest ih =>
    by_cases hxy : lt x y
    · simp [insertPartBy, hxy]
    · simp only [insertPartBy, hxy, if_neg, Bool.false_eq_true, not_false_iff]
      exact (List.Perm.cons y ih).trans (List.Perm.swap x y rest)

theorem perm_sortPartsBy (lt : partialPart → partialPart → Bool) :
    ∀ l : List partialPart, (sortPartsBy lt l).Perm l := by
  intro l
  induction l with
  | nil => simp [sortPartsBy]
  | cons x rest ih =>
    exact (perm_insertPartBy lt x _).trans (List.Perm.cons x ih)

theorem pairwise_insertPartBy {lt : partialPart → partialPart → Bool}
    (h1 : ∀ a b, lt a b = true → a.ordinal ≤ b.ordinal)
    (h2 : ∀ a b, lt a b = false → b.ordinal ≤ a.ordinal)
    (x : partialPart) : ∀ l : List partialPart,
    l.Pairwise (fun p q => p.ordinal ≤ q.ordinal) →
    (insertPartBy lt x l).Pairwise (fun p q => p.ordinal ≤ q.ordinal) := by
  intro l
  induction l with
  | nil => intro _; simp [insertPartBy]
  | cons y rest ih =>
    intro hp
    rcases List.pairwise_cons.mp hp with ⟨hy, hrest⟩
    by_cases hxy : lt x y
    · simp only [insertPartBy, hxy, if_pos]
      refine List.pairwise_cons.mpr ⟨?_, hp⟩
      intro a ha
      rcases List.mem_cons.mp ha with h | h
      · exact h ▸ h1 x y hxy
      · exact le_trans (h1 x y hxy) (hy a h)
    · simp only [insertPartBy, hxy]
      refine List.pairwise_cons.mpr ⟨?_, ih hrest⟩
      intro a ha
      rcases mem_insertPartBy ha with h | h
      · exact h ▸ h2 x y (Bool.not_eq_true _ ▸ (by simpa using hxy))
      · exact hy a h

theorem pairwise_sortPartsBy {lt : partialPart → partialPart → Bool}
    (h1 : ∀ a b, lt a b = true → a.ordinal ≤ b.ordinal)
    (h2 : ∀ a b, lt a b = false → b.ordinal ≤ a.ordinal) :
    ∀ l : List partialPart,
    (sortPartsBy lt l).Pairwise (fun p q => p.ordinal ≤ q.ordinal) := by
  intro l
  induction l with
  | nil => simp [sortPartsBy]
  | cons x rest ih => exact pairwise_insertPartBy h1 h2 x _ ih

theorem sortsByOrdinal_stableSort : SortsByOrdinal stableSortByOrdinal := by
  intro l
  constructor
  · exact perm_sortPartsBy _ l
  · refine pairwise_sortPartsBy ?_ ?_ l
    · intro a b h; exact of_decide_eq_true h
    · intro a b h; exact le_of_lt (lt_of_not_le (of_decide_eq_false h))

theorem sortsByOrdinal_antiSort : SortsByOrdinal antiSortByOrdinal := by
  intro l
  constructor
  · exact perm_sortPartsBy _ l
  · refine pairwise_sortPartsBy ?_ ?_ l
    · intro a b h; exact le_of_lt (of_decide_eq_true h)
    · intro a b h; exact le_of_not_lt (of_decide_eq_false h)

theorem decodeVarintAux_bounds :
    ∀ (data : List Byte) (i s x : Nat),
    (decodeVarintAux data i s x).2 = 0 ∨
      (i + 1 ≤ (decodeVarintAux data i s x).2 ∧
       (decodeVarintAux data i s x).2 ≤ i + data.length ∧
       (decodeVarintAux data i s x).2 ≤ 10) := by
  intro data
  induction data with
  | nil => intro i s x; left; rfl
  | cons b rest ih =>
    intro i s x
    by_cases h10 : 10 ≤ i
    · left; simp [decodeVarintAux, h10]
    · by_cases hb : b < 0x80
      · right
        simp only [decodeVarintAux, if_neg h10, if_pos hb]
        refine ⟨le_refl _, ?_, ?_⟩
        · simp only [List.length_cons]
          omega
        · omega
      · simp only [decodeVarintAux, if_neg h10, if_neg hb]
        rcases ih (i + 1) (s + 7) ((x ||| ((b &&& 0x7f) <<< s) % 2 ^ 64) % 2 ^ 64)
          with h | ⟨h1, h2, h3⟩
        · left; exact h
        · right
          refine ⟨by omega, by simpa [Nat.add_comm, Nat.add_left_comm] using h2, h3⟩

theorem decodeVarint_le (data : List Byte) :
    (decodeVarint data).2 ≤ 10 ∧ (decodeVarint data).2 ≤ data.length := by
  rcases decodeVarintAux_bounds data 0 0 0 with h | ⟨_, h2, h3⟩
  · unfold decodeVarint; omega
  · unfold decodeVarint; omega

theorem decodeVarintAux_allHigh :
    ∀ (data : List Byte) (i s x : Nat),
    (∀ b ∈ data.take (10 - i), 0x80 ≤ b) →
    decodeVarintAux data i s x = (0, 0) := by
  intro data
  induction data with
  | nil => intro i s x _; rfl
  | cons b rest ih =>
    intro i s x hall
    by_cases h10 : 10 ≤ i
    · simp [decodeVarintAux, h10]
    · obtain ⟨k, hk⟩ : ∃ k, 10 - i = k + 1 := ⟨10 - i - 1, by omega⟩
      have hcons : List.take (10 - i) (b :: rest) = b :: List.take k rest := by
        rw [hk, List.take_succ_cons]
      have hb : 0x80 ≤ b := hall b (by rw [hcons]; exact List.mem_cons_self _ _)
      have hb2 : ¬ b < 0x80 := Nat.not_lt.mpr hb
      simp only [decodeVarintAux, if_neg h10, if_neg hb2]
      apply ih
      intro b' hb'
      refine hall b' ?_
      rw [hcons]
      refine List.mem_cons_of_mem _ ?_
      have h1 : 10 - (i + 1) = k := by omega
      exact h1 ▸ hb' 

theorem decodeVarint_allHigh (data : List Byte)
    (h : ∀ b ∈ data.take 10, 0x80 ≤ b) : decodeVarint data = (0, 0) :=
  decodeVarintAux_allHigh data 0 0 0 (by simpa using h)

theorem decodeBytes_ok_length {d : List Byte} {sr : List Byte × List Byte}
    (h : decodeBytes d = .ok sr) : sr.2.length ≤ d.length := by
  simp only [decodeBytes] at h
  split at h
  · exact absurd h (by simp)
  · split at h
    · exact absurd h (by simp)
    · simp only [Except.ok.injEq] at h
      subst h
      simp only [List.length_drop]
      omega

theorem skipField_ok_length {d : List Byte} {wt : Nat} {rest : List Byte}
    (h : skipField d wt = .ok rest) : rest.length ≤ d.length := by
  simp only [skipField] at h
  split at h
  · split at h
    · exact absurd h (by simp)
    · simp only [Except.ok.injEq] at h
      subst h
      simp [List.length_drop]
  · split at h
    · split at h
      · exact absurd h (by simp)
      · simp only [Except.ok.injEq] at h
        subst h
        simp [List.length_drop]
    · split at h
      · cases hd : decodeBytes d with
        | error e => rw [hd] at h; exact absurd h (by simp)
        | ok sr =>
          rw [hd] at h
          simp only [Except.ok.injEq] at h
          subst h
          exact decodeBytes_ok_length hd
      · split at h
        · split at h
          · exact absurd h (by simp)
          · simp only [Except.ok.injEq] at h
            subst h
            simp [List.length_drop]
        · exact absurd h (by simp)

theorem length_drop_le {α : Type} (l : List α) (k : Nat) :
    (l.drop k).length ≤ l.length := by
  simp [List.length_drop]

theorem unmarshalPartialMetaFuel_ne_fuelOut :
    ∀ (fuel : Nat) (data : List Byte) (m : partialLogMetadata),
    data.length ≤ fuel → unmarshalPartialMetaFuel fuel data m ≠ URes.fuelOut := by
  intro fuel
  induction fuel with
  | zero =>
    intro data m h
    have hd : data = [] := List.length_eq_zero.mp (Nat.le_zero.mp h)
    subst hd
    simp [unmarshalPartialMetaFuel]
  | succ n ih =>
    intro data m h
    cases data with
    | nil => simp [unmarshalPartialMetaFuel]
    | cons b bs =>
      have hbs : bs.length ≤ n := by
        simp only [List.length_cons] at h; omega
      simp only [unmarshalPartialMetaFuel]
      by_cases h0 : (decodeVarint (b :: bs)).2 = 0
      · simp [h0]
      · have h1 : 1 ≤ (decodeVarint (b :: bs)).2 := Nat.pos_of_ne_zero h0
        have hd1 : ((b :: bs).drop (decodeVarint (b :: bs)).2).length ≤ n := by
          simp only [List.length_drop, List.length_cons]; omega
        rw [if_neg h0]
        by_cases hf1 : (decodeVarint (b :: bs)).1 >>> 3 = 1
        · rw [if_pos hf1]
          by_cases hw : (decodeVarint (b :: bs)).1 &&& 0x7 ≠ 0
          · rw [if_pos hw]; simp
          · rw [if_neg hw]
            by_cases hv : (decodeVarint ((b :: bs).drop (decodeVarint (b :: bs)).2)).2 = 0
            · rw [if_pos hv]; simp
            · rw [if_neg hv]
              exact ih _ _ (le_trans (length_drop_le _ _) hd1)
        · rw [if_neg hf1]
          by_cases hf2 : (decodeVarint (b :: bs)).1 >>> 3 = 2
          · rw [if_pos hf2]
            by_cases hw : (decodeVarint (b :: bs)).1 &&& 0x7 ≠ 2
            · rw [if_pos hw]; simp
            · rw [if_neg hw]
              cases hdb : decodeBytes ((b :: bs).drop (decodeVarint (b :: bs)).2) with
              | error e => simp
              | ok sr => exact ih _ _ (le_trans (decodeBytes_ok_length hdb) hd1)
          · rw [if_neg hf2]
            by_cases hf3 : (decodeVarint (b :: bs)).1 >>> 3 = 3
            · rw [if_pos hf3]
              by_cases hw : (decodeVarint (b :: bs)).1 &&& 0x7 ≠ 0
              · rw [if_pos hw]; simp
              · rw [if_neg hw]
                by_cases hv : (decodeVarint ((b :: bs).drop (decodeVarint (b :: bs)).2)).2 = 0
                · rw [if_pos hv]; simp
                · rw [if_neg hv]
                  exact ih _ _ (le_trans (length_drop_le _ _) hd1)
            · rw [if_neg hf3]
              cases hsk : skipField ((b :: bs).drop (decodeVarint (b :: bs)).2)
                  ((decodeVarint (b :: bs)).1 &&& 0x7) with
              | error e => simp
              | ok rest => exact ih _ _ (le_trans (skipField_ok_length hsk) hd1)

theorem unmarshalPartialMeta_ne_fuelOut (d : List Byte) (m : partialLogMetadata) :
    unmarshalPartialMeta d m ≠ URes.fuelOut :=
  unmarshalPartialMetaFuel_ne_fuelOut _ _ _ (le_refl _)

theorem unmarshalLogEntryFuel_ne_fuelOut :
    ∀ (fuel : Nat) (data : List Byte) (e : logEntry),
    data.length ≤ fuel → unmarshalLogEntryFuel fuel data e ≠ URes.fuelOut := by
  intro fuel
  induction fuel with
  | zero =>
    intro data e h
    have hd : data = [] := List.length_eq_zero.mp (Nat.le_zero.mp h)
    subst hd
    simp [unmarshalLogEntryFuel]
  | succ n ih =>
    intro data e h
    cases data with
    | nil => simp [unmarshalLogEntryFuel]
    | cons b bs =>
      have hbs : bs.length ≤ n := by
        simp only [List.length_cons] at h; omega
      simp only [unmarshalLogEntryFuel]
      by_cases h0 : (decodeVarint (b :: bs)).2 = 0
      · simp [h0]
      · have h1 : 1 ≤ (decodeVarint (b :: bs)).2 := Nat.pos_of_ne_zero h0
        have hd1 : ((b :: bs).drop (decodeVarint (b :: bs)).2).length ≤ n := by
          simp only [List.length_drop, List.length_cons]; omega
        rw [if_neg h0]
        by_cases hf1 : (decodeVarint (b :: bs)).1 >>> 3 = 1
        · rw [if_pos hf1]
          by_cases hw : (decodeVarint (b :: bs)).1 &&& 0x7 ≠ 2
          · rw [if_pos hw]; simp
          · rw [if_neg hw]
            cases hdb : decodeBytes ((b :: bs).drop (decodeVarint (b :: bs)).2) with
            | error e2 => simp
            | ok sr => exact ih _ _ (le_trans (decodeBytes_ok_length hdb) hd1)
        · rw [if_neg hf1]
          by_cases hf2 : (decodeVarint (b :: bs)).1 >>> 3 = 2
          · rw [if_pos hf2]
            by_cases hw : (decodeVarint (b :: bs)).1 &&& 0x7 ≠ 0
            · rw [if_pos hw]; simp
            · rw [if_neg hw]
              by_cases hv : (decodeVarint ((b :: bs).drop (decodeVarint (b :: bs)).2)).2 = 0
              · rw [if_pos hv]; simp
              · rw [if_neg hv]
                exact ih _ _ (le_trans (length_drop_le _ _) hd1)
          · rw [if_neg hf2]
            by_cases hf3 : (decodeVarint (b :: bs)).1 >>> 3 = 3
            · rw [if_pos hf3]
              by_cases hw : (decodeVarint (b :: bs)).1 &&& 0x7 ≠ 2
              · rw [if_pos hw]; simp
              · rw [if_neg hw]
                cases hdb : decodeBytes ((b :: bs).drop (decodeVarint (b :: bs)).2) with
                | error e2 => simp
                | ok sr => exact ih _ _ (le_trans (decodeBytes_ok_length hdb) hd1)
            · rw [if_neg hf3]
              by_cases hf4 : (decodeVarint (b :: bs)).1 >>> 3 = 4
              · rw [if_pos hf4]
                by_cases hw : (decodeVarint (b :: bs)).1 &&& 0x7 ≠ 0
                · rw [if_pos hw]; simp
                · rw [if_neg hw]
                  by_cases hv : (decodeVarint ((b :: bs).drop (decodeVarint (b :: bs)).2)).2 = 0
                  · rw [if_pos hv]; simp
                  · rw [if_neg hv]
                    exact ih _ _ (le_trans (length_drop_le _ _) hd1)
              · rw [if_neg hf4]
                by_cases hf5 : (decodeVarint (b :: bs)).1 >>> 3 = 5
                · rw [if_pos hf5]
                  by_cases hw : (decodeVarint (b :: bs)).1 &&& 0x7 ≠ 2
                  · rw [if_pos hw]; simp
                  · rw [if_neg hw]
                    cases hdb : decodeBytes ((b :: bs).drop (decodeVarint (b :: bs)).2) with
                    | error e2 => simp
                    | ok sr =>
                      dsimp only
                      cases hpm : unmarshalPartialMeta sr.1
                          { Last := false, ID := [], Ordinal := 0 } with
                      | err e2 => simp
                      | fuelOut => exact absurd hpm (unmarshalPartialMeta_ne_fuelOut _ _)
                      | ok meta => exact ih _ _ (le_trans (decodeBytes_ok_length hdb) hd1)
                · rw [if_neg hf5]
                  cases hsk : skipField ((b :: bs).drop (decodeVarint (b :: bs)).2)
                      ((decodeVarint (b :: bs)).1 &&& 0x7) with
                  | error e2 => simp
                  | ok rest => exact ih _ _ (le_trans (skipField_ok_length hsk) hd1)

theorem intercalate_singleton (sep x : List Byte) :
    List.intercalate sep [x] = x := by
  simp [List.intercalate]

theorem intercalate_cons_cons (sep y z : List Byte) (l : List (List Byte)) :
    List.intercalate sep (y :: z :: l) = y ++ sep ++ List.intercalate sep (z :: l) := by
  simp [List.intercalate, List.intersperse_cons_cons, List.append_assoc]

theorem intercalate_append_singleton (sep : List Byte) :
    ∀ (gl : List (List Byte)) (x : List Byte), gl ≠ [] →
    List.intercalate sep (gl ++ [x]) =
      List.intercalate sep gl ++ sep ++ x := by
  intro gl
  induction gl with
  | nil => intro x hx; exact absurd rfl hx
  | cons y ys ih =>
    intro x _
    cases ys with
    | nil => simp [intercalate_cons_cons, intercalate_singleton]
    | cons z zs =>
      have h2 : (y :: z :: zs) ++ [x] = y :: z :: (zs ++ [x]) := rfl
      rw [h2, intercalate_cons_cons sep y z (zs ++ [x]),
        intercalate_cons_cons sep y z zs]
      have h3 : z :: (zs ++ [x]) = (z :: zs) ++ [x] := rfl
      rw [h3, ih x (by simp)]
      simp [List.append_assoc]

theorem flushLocked_fst_hasData (st : MergerState) :
    (flushLocked st).1.hasData = false := by
  cases hdd : st.hasData <;> simp [flushLocked, hdd]

theorem flushLocked_inv {cfg : MergerCfg} {isCont : List Byte → Bool}
    {st : MergerState} (h : MInv cfg isCont st) :
    MInv cfg isCont (flushLocked st).1 ∧
    ∀ m ∈ (flushLocked st).2, GoodMsg cfg isCont m := by
  cases hdd : st.hasData with
  | false =>
    constructor
    · simpa [flushLocked, hdd] using h
    · intro m hm
      simp [flushLocked, hdd] at hm
  | true =>
    obtain ⟨_, h1⟩ := h
    obtain ⟨hne, hcount, hbuf, htail, hcaps⟩ := h1 hdd
    constructor
    · constructor
      · intro _
        simp [flushLocked, hdd]
      · intro habs
        simp [flushLocked, hdd] at habs
    · intro m hm
      simp only [flushLocked, hdd, Bool.true_eq_false, if_neg, if_false,
        List.mem_singleton, Bool.false_eq_true] at hm
      subst hm
      refine ⟨hne, hbuf, ?_⟩
      by_cases hlen : st.glines.length = 1
      · left; exact hlen
      · right
        have hpos : 0 < st.glines.length := List.length_pos.mpr hne
        have h2 : 2 ≤ st.glines.length := by omega
        rcases hcaps h2 with ⟨hml, hmb⟩
        exact ⟨htail, hml, hbuf ▸ hmb⟩

theorem seed_inv {cfg : MergerCfg} {isCont : List Byte → Bool}
    {st1 : MergerState} (h : MInv cfg isCont st1) (hd : st1.hasData = false)
    (line : List Byte) (source : GoString) (t : Int) :
    MInv cfg isCont (seedMerger st1 line source t) := by
  obtain ⟨h0, _⟩ := h
  rcases h0 hd with ⟨hbuf, _, _⟩
  constructor
  · intro habs
    simp [seedMerger] at habs
  · intro _
    refine ⟨by simp [seedMerger], by simp [seedMerger], ?_, ?_, ?_⟩
    · simp [seedMerger, hbuf, intercalate_singleton]
    · intro l hl
      simp [seedMerger] at hl
    · intro h2
      simp [seedMerger] at h2

theorem addLine_inv {cfg : MergerCfg} {isCont : List Byte → Bool}
    (hre : cfg.MultilineRegex = some isCont)
    {st : MergerState} (h : MInv cfg isCont st)
    (line : List Byte) (source : GoString) (t : Int) :
    MInv cfg isCont (multilineMerger.AddLine cfg st line source t).1 ∧
    ∀ m ∈ (multilineMerger.AddLine cfg st line source t).2,
      GoodMsg cfg isCont m := by
  unfold multilineMerger.AddLine
  rw [hre]
  dsimp only
  by_cases hc : isCont line = false
  · rw [if_pos hc]
    rcases flushLocked_inv h with ⟨hinv, hmsgs⟩
    exact ⟨seed_inv hinv (flushLocked_fst_hasData st) line source t, hmsgs⟩
  · rw [if_neg hc]
    by_cases hdd : st.hasData = false
    · rw [if_pos hdd]
      exact ⟨seed_inv h hdd line source t, by intro m hm; simp at hm⟩
    · rw [if_neg hdd]
      have hdt : st.hasData = true := by
        revert hdd; cases st.hasData <;> simp
      by_cases hcap : cfg.MultilineMaxLines ≤ st.lineCount ∨
          cfg.MultilineMaxBytes < st.buf.length + cfg.MultilineSep.length + line.length
      · rw [if_pos hcap]
        rcases flushLocked_inv h with ⟨hinv, hmsgs⟩
        exact ⟨seed_inv hinv (flushLocked_fst_hasData st) line source t, hmsgs⟩
      · rw [if_neg hcap]
        push_neg at hcap
        rcases hcap with ⟨hml, hmb⟩
        obtain ⟨_, h1⟩ := h
        rcases h1 hdt with ⟨hne, hcount, hbuf, htail, _⟩
        have hct : isCont line = true := by
          revert hc; cases isCont line <;> simp
        obtain ⟨g0, gs, hgl⟩ := List.exists_cons_of_ne_nil hne
        constructor
        · constructor
          · intro habs
            dsimp only at habs
            rw [hdt] at habs
            exact absurd habs (by simp)
          · intro _
            refine ⟨?_, ?_, ?_, ?_, ?_⟩
            · dsimp only
              simp
            · dsimp only
              simp [hcount]
            · dsimp only
              rw [intercalate_append_singleton cfg.MultilineSep st.glines line hne,
                hbuf]
            · intro l hl
              dsimp only at hl
              rw [hgl] at hl
              simp only [List.cons_append, List.tail_cons] at hl
              rcases List.mem_append.mp hl with hl1 | hl1
              · apply htail
                rw [hgl]
                simpa using hl1
              · have hle : l = line := by simpa using hl1
                rw [hle]
                exact hct
            · intro _
              refine ⟨?_, ?_⟩
              · simp only [List.length_append, List.length_cons, List.length_nil]
                omega
              · simp only [List.length_append]
                omega
        · intro m hm
          simp at hm
-- placeholder end

theorem mergerRun_good_aux {cfg : MergerCfg} {isCont : List Byte → Bool}
    (hre : cfg.MultilineRegex = some isCont) :
    ∀ (ops : List MergerOp) (st : MergerState) (acc : List mergedMessage),
    MInv cfg isCont st → (∀ m ∈ acc, GoodMsg cfg isCont m) →
    ∀ m ∈ (ops.foldl
      (fun st2 op =>
        let r := mergerStep cfg st2.1 op
        (r.1, st2.2 ++ r.2))
      (st, acc)).2, GoodMsg cfg isCont m := by
  intro ops
  induction ops with
  | nil =>
    intro st acc _ hacc m hm
    exact hacc m (by simpa using hm)
  | cons op rest ih =>
    intro st acc hinv hacc m hm
    rw [List.foldl_cons] at hm
    refine ih _ _ ?_ ?_ m hm
    · cases op with
      | add line source t => exact (addLine_inv hre hinv line source t).1
      | flush => exact (flushLocked_inv hinv).1
    · intro m2 hm2
      rcases List.mem_append.mp hm2 with h3 | h3
      · exact hacc m2 h3
      · cases op with
        | add line source t => exact (addLine_inv hre hinv line source t).2 m2 h3
        | flush => exact (flushLocked_inv hinv).2 m2 h3

theorem initMergerState_inv (cfg : MergerCfg) (isCont : List Byte → Bool) :
    MInv cfg isCont initMergerState := by
  constructor
  · intro _
    exact ⟨rfl, rfl, rfl⟩
  · intro habs
    simp [initMergerState] at habs

theorem alookup_mem {α β : Type} [DecidableEq α] :
    ∀ {l : List (α × β)} {k : α} {v : β},
    alookup l k = some v → (k, v) ∈ l := by
  intro l
  induction l with
  | nil => intro k v h; simp [alookup] at h
  | cons p rest ih =>
    intro k v h
    by_cases hk : p.1 = k
    · simp only [alookup, if_pos hk] at h
      have hv : p.2 = v := Option.some_inj.mp h
      rw [← hk, ← hv]
      exact List.mem_cons_self _ _
    · simp only [alookup, if_neg hk] at h
      exact List.mem_cons_of_mem _ (ih h)

/-- Head-of-parts description of the lookup-or-create group. -/
theorem groupOf_cases {groups : PAGroups} (h : PAInv groups) (e : logEntry)
    (m : partialLogMetadata) :
    ((groupOf groups e m).parts = [] ∧ (groupOf groups e m).source = e.Source ∧
      (groupOf groups e m).timeNano = e.TimeNano) ∨
    (∃ p rest, (groupOf groups e m).parts = p :: rest ∧
      (groupOf groups e m).source = p.psource ∧
      (groupOf groups e m).timeNano = p.ptimeNano) := by
  unfold groupOf
  cases hl : alookup groups m.ID with
  | none => left; exact ⟨rfl, rfl, rfl⟩
  | some g2 => right; exact h (m.ID, g2) (alookup_mem hl)

/-- The appended parts list keeps its first-inserted head. -/
theorem groupOf_head {groups : PAGroups} (h : PAInv groups) (e : logEntry)
    (m : partialLogMetadata) :
    ∃ p rest, (groupOf groups e m).parts ++ [mkPart e m] = p :: rest ∧
      (groupOf groups e m).source = p.psource ∧
      (groupOf groups e m).timeNano = p.ptimeNano := by
  rcases groupOf_cases h e m with ⟨h1, h2, h3⟩ | ⟨p, rest, h1, h2, h3⟩
  · refine ⟨mkPart e m, [], ?_, ?_, ?_⟩
    · rw [h1]; rfl
    · simpa [mkPart] using h2
    · simpa [mkPart] using h3
  · exact ⟨p, rest ++ [mkPart e m], by rw [h1]; rfl, h2, h3⟩

theorem paAdd_inv (sortFn : List partialPart → List partialPart)
    {groups : PAGroups} (h : PAInv groups) (e : logEntry) :
    PAInv (partialAssembler.Add sortFn groups e).1 ∧
    ∀ out ∈ (partialAssembler.Add sortFn groups e).2.toList,
      ∃ p rest, out.gparts = p :: rest ∧ out.source = p.psource ∧
        out.timeNano = p.ptimeNano := by
  unfold partialAssembler.Add
  by_cases hp : e.Partial = false
  · rw [if_pos hp]
    refine ⟨h, ?_⟩
    intro out hout
    simp only [Option.toList_some, List.mem_singleton] at hout
    subst hout
    exact ⟨mkPart e { Last := false, ID := [], Ordinal := 0 }, [], rfl, rfl, rfl⟩
  · rw [if_neg hp]
    cases hm : e.PartialLogMetadata with
    | none =>
      refine ⟨h, ?_⟩
      intro out hout
      simp only [Option.toList_some, List.mem_singleton] at hout
      subst hout
      exact ⟨mkPart e { Last := false, ID := [], Ordinal := 0 }, [], rfl, rfl, rfl⟩
    | some m =>
      dsimp only
      by_cases hl : m.Last = false
      · rw [if_pos hl]
        constructor
        · intro kg hkg
          rcases mem_aset hkg with h1 | h1
          · exact h kg h1
          · subst h1
            obtain ⟨p, rest, h1, h2, h3⟩ := groupOf_head h e m
            exact ⟨p, rest, h1, h2, h3⟩
        · intro out hout
          simp at hout
      · rw [if_neg hl]
        constructor
        · intro kg hkg
          rcases mem_aset (mem_aremove hkg) with h1 | h1
          · exact h kg h1
          · subst h1
            obtain ⟨p, rest, h1, h2, h3⟩ := groupOf_head h e m
            exact ⟨p, rest, h1, h2, h3⟩
        · intro out hout
          simp only [Option.toList_some, List.mem_singleton] at hout
          subst hout
          obtain ⟨p, rest, h1, h2, h3⟩ := groupOf_head h e m
          exact ⟨p, rest, h1, h2, h3⟩

theorem paRun_firstInserted_aux (sortFn : List partialPart → List partialPart) :
    ∀ (entries : List logEntry) (groups : PAGroups) (acc : List ReassembledOut),
    PAInv groups →
    (∀ out ∈ acc, ∃ p rest, out.gparts = p :: rest ∧
      out.source = p.psource ∧ out.timeNano = p.ptimeNano) →
    ∀ out ∈ (entries.foldl
      (fun st e2 =>
        let r := partialAssembler.Add sortFn st.1 e2
        (r.1, st.2 ++ r.2.toList))
      (groups, acc)).2,
    ∃ p rest, out.gparts = p :: rest ∧ out.source = p.psource ∧
      out.timeNano = p.ptimeNano := by
  intro entries
  induction entries with
  | nil =>
    intro groups acc _ hacc out hout
    exact hacc out (by simpa using hout)
  | cons e2 rest ih =>
    intro groups acc hinv hacc out hout
    rw [List.foldl_cons] at hout
    refine ih _ _ (paAdd_inv sortFn hinv e2).1 ?_ out hout
    intro o2 ho2
    rcases List.mem_append.mp ho2 with h3 | h3
    · exact hacc o2 h3
    · exact (paAdd_inv sortFn hinv e2).2 o2 h3

theorem drop_takeWhile_length (p : Byte → Bool) (l : List Byte) :
    l.drop (l.takeWhile p).length = l.dropWhile p := by
  induction l with
  | nil => rfl
  | cons b rest ih =>
    by_cases hb : p b
    · simp [List.takeWhile_cons, List.dropWhile_cons, hb, ih]
    · simp [List.takeWhile_cons, List.dropWhile_cons, hb]

theorem stripDrop_eq (rest : List Byte) :
    (if 0 < trailingSepLen rest then rest.drop (trailingSepLen rest) else rest) =
      rest.dropWhile isSepByte := by
  by_cases h : 0 < trailingSepLen rest
  · rw [if_pos h]
    exact drop_takeWhile_length _ _
  · rw [if_neg h]
    have h0 : trailingSepLen rest = 0 := Nat.eq_zero_of_not_pos h
    have h1 := drop_takeWhile_length isSepByte rest
    unfold trailingSepLen at h0
    rw [h0, List.drop_zero] at h1
    exact h1

theorem alookup_filterMap_none (f : JVal → Option String) :
    ∀ (l : JObj) (k : String), (∀ kv ∈ l, kv.1 ≠ k) →
    alookup (l.filterMap (fun kv => (f kv.2).map (fun s => (kv.1, s)))) k =
      none := by
  intro l
  induction l with
  | nil => intro k _; rfl
  | cons kv rest ih =>
    intro k hne
    rw [List.filterMap_cons]
    cases hf : (f kv.2).map (fun s => (kv.1, s)) with
    | none => exact ih k (fun kv2 h2 => hne kv2 (List.mem_cons_of_mem _ h2))
    | some pr =>
      obtain ⟨s, _, hpr⟩ : ∃ s, f kv.2 = some s ∧ pr = (kv.1, s) := by
        cases hf2 : f kv.2 with
        | none =>
          rw [hf2] at hf
          exact Option.noConfusion hf
        | some s =>
          rw [hf2] at hf
          exact ⟨s, rfl, (Option.some_inj.mp hf).symm⟩
      subst hpr
      simp only [alookup]
      rw [if_neg (hne kv (List.mem_cons_self _ _))]
      exact ih k (fun kv2 h2 => hne kv2 (List.mem_cons_of_mem _ h2))

theorem mem_aremove_ne (l : JObj) (k : String) :
    ∀ kv ∈ aremove l k, kv.1 ≠ k := by
  intro kv hkv
  have h2 := List.of_mem_filter hkv
  simpa using h2

theorem alookup_extras_aremove (l : JObj) (k : String) :
    alookup ((aremove l k).filterMap
      (fun kv => (flattenJVal kv.2).map (fun s => (kv.1, s)))) k = none :=
  alookup_filterMap_none flattenJVal (aremove l k) k (mem_aremove_ne l k)

theorem timeUnixIsZero_eq_false (n : Int) (h1 : -(2 ^ 63) ≤ n)
    (h2 : n < 2 ^ 63) : timeUnixIsZero n = false := by
  have hq : n.ediv 1000000000 ≠ -62135596800 := by
    intro heq
    have hmod : 0 ≤ n.emod 1000000000 :=
      Int.emod_nonneg n (by norm_num)
    have hlt : n.emod 1000000000 < 1000000000 :=
      Int.emod_lt_of_pos n (by norm_num)
    have hdm : 1000000000 * n.ediv 1000000000 + n.emod 1000000000 = n :=
      Int.ediv_add_emod n 1000000000
    rw [heq] at hdm
    omega
  simp [timeUnixIsZero, hq]

/-! ## Claim theorems -/

/-- C10: the frame-body decoder is total.  `decodeVarint` consumes at most
10 bytes and never more than the input, reports failure (length 0) when the
first 10 bytes all have the continuation bit (over-long or truncated
varints), and both unmarshal loops finish within `data.length` iterations
because every iteration consumes at least the one-byte-or-more tag varint:
fuel equal to the input length never runs out, so no input byte slice loops
forever. -/
theorem c10_decoder_total :
    (∀ data : List Byte,
      (decodeVarint data).2 ≤ 10 ∧ (decodeVarint data).2 ≤ data.length ∧
      ((∀ b ∈ data.take 10, 0x80 ≤ b) → decodeVarint data = (0, 0))) ∧
    (∀ (fuel : Nat) (data : List Byte) (m : partialLogMetadata),
      data.length ≤ fuel →
      unmarshalPartialMetaFuel fuel data m ≠ URes.fuelOut) ∧
    (∀ (fuel : Nat) (data : List Byte) (e : logEntry),
      data.length ≤ fuel →
      unmarshalLogEntryFuel fuel data e ≠ URes.fuelOut) := by
  refine ⟨?_, unmarshalPartialMetaFuel_ne_fuelOut, unmarshalLogEntryFuel_ne_fuelOut⟩
  intro data
  rcases decodeVarint_le data with ⟨h1, h2⟩
  exact ⟨h1, h2, decodeVarint_allHigh data⟩

/-- Witness for C10 at a concrete two-byte body. -/
theorem c10_witness :
    ([8, 1] : List Byte).length ≤ 2 ∧
    unmarshalLogEntryFuel 2 [8, 1] defaultLogEntry ≠ URes.fuelOut ∧
    unmarshalPartialMetaFuel 2 [8, 1]
      { Last := false, ID := [], Ordinal := 0 } ≠ URes.fuelOut :=
  ⟨by decide,
   c10_decoder_total.2.2 2 [8, 1] defaultLogEntry (by decide),
   c10_decoder_total.2.1 2 [8, 1] _ (by decide)⟩

/-- C5: with the sd-daemon prefix option enabled, a line starting with the
3 bytes 60 (`<`), a digit 48–55 (`0`–`7`) and 62 (`>`) is classified as
that digit's priority with the prefix stripped (leaving an empty body when
nothing follows), regardless of the configured matchers and the source
defaults; and whenever the sd-daemon branch does not fire, the returned
line is the input unchanged — a regex-matcher match never modifies it. -/
theorem c5_sd_daemon_precedence :
    (∀ (cfg : PriorityCfg) (source : GoString) (d : Byte) (rest : List Byte),
      cfg.PriorityPrefixEnabled = true → 48 ≤ d → d ≤ 55 →
      DetectPriority cfg (60 :: d :: 62 :: rest) source = (d - 48, rest)) ∧
    (∀ (cfg : PriorityCfg) (line : List Byte) (source : GoString),
      (cfg.PriorityPrefixEnabled = true → sdDaemonFind line = none) →
      (DetectPriority cfg line source).2 = line) := by
  constructor
  · intro cfg source d rest hp h48 h55
    unfold DetectPriority
    rw [hp]
    have hsd : sdDaemonFind (60 :: d :: 62 :: rest) = some (d - 48, rest) := by
      simp [sdDaemonFind, h48, h55]
    rw [hsd]
  · intro cfg line source hnone
    unfold DetectPriority
    cases hp : cfg.PriorityPrefixEnabled with
    | true =>
      rw [hnone hp]
      cases hm : matcherScan cfg.PriorityMatchers line with
      | some p => rfl
      | none =>
        by_cases hs : source = ascii "stderr"
        · simp [hs]
        · simp [hs]
    | false =>
      cases hm : matcherScan cfg.PriorityMatchers line with
      | some p => rfl
      | none =>
        by_cases hs : source = ascii "stderr"
        · simp [hs]
        · simp [hs]

/-- Witness for C5: a concrete configuration whose err matcher matches the
line, yet the sd-daemon prefix wins and strips; and a matcher match that
modifies nothing. -/
theorem c5_witness :
    c5cfg.PriorityPrefixEnabled = true ∧
    DetectPriority c5cfg (60 :: 54 :: 62 :: ascii "ERROR in module")
      (ascii "stdout") = (6, ascii "ERROR in module") ∧
    DetectPriority c5cfg (60 :: 51 :: 62 :: ([] : List Byte))
      (ascii "stdout") = (3, []) ∧
    (DetectPriority c5cfg (ascii "ERROR in module") (ascii "stdout")).2 =
      ascii "ERROR in module" :=
  ⟨rfl,
   c5_sd_daemon_precedence.1 c5cfg (ascii "stdout") 54 (ascii "ERROR in module")
     rfl (by decide) (by decide),
   c5_sd_daemon_precedence.1 c5cfg (ascii "stdout") 51 [] rfl (by decide)
     (by decide),
   c5_sd_daemon_precedence.2 c5cfg (ascii "ERROR in module") (ascii "stdout")
     (fun _ => by decide)⟩

/-- C3 counterexample: a zero-length frame does not clear the record — the
caller's record comes back unchanged, with `Partial` still true and a
nonempty line, not the all-default record the claim requires for every
input state. -/
theorem c3_counterexample :
    decode dirtyEntry [0, 0, 0, 0] = DecodeResult.ok dirtyEntry [] ∧
    dirtyEntry.Partial = true ∧ dirtyEntry.Line ≠ [] := by
  refine ⟨by decide, by decide, by decide⟩

/-- C3 amended: a zero-length frame returns the record exactly as passed in
(all-default only when the caller passes a fresh record, as the driver's
read loop does), and for every nonzero-length frame the decoder clears the
record first, so the result does not depend on the record's prior state. -/
theorem c3_amended :
    (∀ (entry : logEntry) (b0 b1 b2 b3 : Byte) (rest : List Byte),
      bigEndianU32 b0 b1 b2 b3 = 0 →
      decode entry (b0 :: b1 :: b2 :: b3 :: rest) = DecodeResult.ok entry rest) ∧
    (decode defaultLogEntry [0, 0, 0, 0] = DecodeResult.ok defaultLogEntry []) ∧
    (∀ (e1 e2 : logEntry) (b0 b1 b2 b3 : Byte) (rest : List Byte),
      bigEndianU32 b0 b1 b2 b3 ≠ 0 →
      decode e1 (b0 :: b1 :: b2 :: b3 :: rest) =
        decode e2 (b0 :: b1 :: b2 :: b3 :: rest)) := by
  refine ⟨?_, by decide, ?_⟩
  · intro entry b0 b1 b2 b3 rest h
    simp [decode, h]
  · intro e1 e2 b0 b1 b2 b3 rest h
    simp [decode, h]

/-- Witness for C3 at concrete frames: a zero frame with a dirty record,
and a nonzero frame decoded identically from two different prior records. -/
theorem c3_witness :
    bigEndianU32 0 0 0 0 = 0 ∧
    decode dirtyEntry [0, 0, 0, 0, 99] = DecodeResult.ok dirtyEntry [99] ∧
    bigEndianU32 0 0 0 1 ≠ 0 ∧
    decode dirtyEntry [0, 0, 0, 1, 8] = decode defaultLogEntry [0, 0, 0, 1, 8] :=
  ⟨by decide, c3_amended.1 dirtyEntry 0 0 0 0 [99] (by decide), by decide,
   c3_amended.2.2 dirtyEntry defaultLogEntry 0 0 0 1 [8] (by decide)⟩

/-- C4 (code bug): for every `int64` time value — zero included — the guard
`!time.Unix(0, msg.TimeNano).IsZero()` is true, because `time.Unix(0, 0)`
is the 1970 epoch and not Go's zero time (year 1); `SYSLOG_TIMESTAMP` is
therefore always present in the sent field map, while the claim (and the
evident intent of the dead guard) is that it be omitted for a zero time. -/
theorem c4_code_bug :
    ∀ (n : Int), -(2 ^ 63) ≤ n → n < 2 ^ 63 →
    timeUnixIsZero n = false ∧
    ∀ (baseVars jsonFields : List (String × String)) (rfc : Int → String),
      alookup (journalWriter.Write baseVars jsonFields n rfc)
        "SYSLOG_TIMESTAMP" = some (rfc n) := by
  intro n h1 h2
  have hz := timeUnixIsZero_eq_false n h1 h2
  refine ⟨hz, ?_⟩
  intro baseVars jsonFields rfc
  unfold journalWriter.Write
  rw [if_pos hz]
  exact alookup_aset_self _ _ _

/-- Witness for C4 at the failing input `time_nano = 0`: the timestamp
field is present although the time is zero. -/
theorem c4_witness :
    -(2 ^ 63) ≤ (0 : Int) ∧ (0 : Int) < 2 ^ 63 ∧
    timeUnixIsZero 0 = false ∧
    alookup (journalWriter.Write [] [] 0 c1rfc) "SYSLOG_TIMESTAMP" =
      some (c1rfc 0) :=
  ⟨by decide, by decide, (c4_code_bug 0 (by decide) (by decide)).1,
   (c4_code_bug 0 (by decide) (by decide)).2 [] [] c1rfc⟩

/-- C1 (code bug): at the repository's own field-extraction test input,
`Config.ExtractFields` does extract `REQUEST_ID=abc123` and `USER_ID=42`
from the processed line, yet the field map built by `journalWriter.Write`
contains neither — the writer never applies the extractors, so the claimed
"field present iff the regex matches" fails whenever a regex matches. -/
theorem c1_write_omits_extracted_fields :
    alookup (ExtractFields c1extractors c1msg) "REQUEST_ID" =
      some "abc123".data ∧
    alookup (ExtractFields c1extractors c1msg) "USER_ID" = some "42".data ∧
    (buildBaseVars noTemplate c1jcfg c1info).map
      (fun base => alookup (journalWriter.Write base [] 1000 c1rfc)
        "REQUEST_ID") = some none ∧
    (buildBaseVars noTemplate c1jcfg c1info).map
      (fun base => alookup (journalWriter.Write base [] 1000 c1rfc)
        "USER_ID") = some none := by
  refine ⟨by decide, by decide, by decide, by decide⟩

/-- C2 counterexample: with fragments arriving out of order (ordinal 2 at
time 1000 first, ordinal 0 at time 2000 second), the emitted line carries
time 1000 — the first-arrived fragment's time — while the lowest-ordinal
fragment has time 2000.  The sort used is admissible for `sort.Slice`. -/
theorem c2_counterexample :
    SortsByOrdinal stableSortByOrdinal ∧
    (partialAssembler.run stableSortByOrdinal c2entries).2 = [c2out] ∧
    c2out.timeNano = 1000 ∧
    c2lowest ∈ c2out.gparts ∧
    c2out.gparts.all (fun p => decide (c2lowest.ordinal ≤ p.ordinal)) = true ∧
    c2lowest.ptimeNano = 2000 ∧ (1000 : Int) ≠ 2000 :=
  ⟨sortsByOrdinal_stableSort, by decide, by decide, by decide, by decide,
   by decide, by decide⟩

/-- C2 amended: for every sorting function and every arrival order, the
emitted `ReassembledLine` carries the source and `time_nano` of the
group's first-inserted (first-arrived) fragment — the head of the
arrival-ordered fragment list — not of the lowest-ordinal fragment. -/
theorem c2_first_inserted_source_time :
    ∀ (sortFn : List partialPart → List partialPart) (entries : List logEntry),
    ∀ out ∈ (partialAssembler.run sortFn entries).2,
    ∃ p rest, out.gparts = p :: rest ∧ out.source = p.psource ∧
      out.timeNano = p.ptimeNano := by
  intro sortFn entries out hout
  unfold partialAssembler.run at hout
  refine paRun_firstInserted_aux sortFn entries [] [] ?_ ?_ out hout
  · intro kg hkg
    exact absurd hkg (List.not_mem_nil _)
  · intro o2 ho2
    exact absurd ho2 (List.not_mem_nil _)

/-- Witness for C2 at the out-of-order run: the emitted line carries the
metadata of the head of the arrival-ordered fragment list. -/
theorem c2_witness :
    c2out ∈ (partialAssembler.run stableSortByOrdinal c2entries).2 ∧
    c2out.source = c2firstPart.psource ∧
    c2out.timeNano = c2firstPart.ptimeNano := by
  have hmem : c2out ∈ (partialAssembler.run stableSortByOrdinal c2entries).2 :=
    by decide
  obtain ⟨p, rest, h1, h2, h3⟩ :=
    c2_first_inserted_source_time stableSortByOrdinal c2entries c2out hmem
  have hgp : c2out.gparts = c2firstPart :: c2out.gparts.tail := by decide
  have hp : p = c2firstPart := by
    rw [hgp] at h1
    exact (List.cons_eq_cons.mp h1.symm).1
  subst hp
  exact ⟨hmem, h2, h3⟩

/-- C9 counterexample: `sort.Slice` guarantees only an ordinal-sorted
permutation, not stability.  The anti-stable sort satisfies that contract,
yet on two equal-ordinal fragments (A then B) the assembler emits `BA`,
whereas the stable (arrival-order-preserving) concatenation the claim
demands is `AB`. -/
theorem c9_counterexample :
    SortsByOrdinal antiSortByOrdinal ∧
    (partialAssembler.run antiSortByOrdinal c9entries).2.map
      (fun o => (o.line, o.gparts)) = [(ascii "BA", c9parts)] ∧
    ((stableSortByOrdinal c9parts).map (fun p => p.data)).flatten =
      ascii "AB" ∧
    ascii "BA" ≠ ascii "AB" :=
  ⟨sortsByOrdinal_antiSort, by decide, by decide, by decide⟩

/-- C9 amended: for every sorting function satisfying the `sort.Slice`
contract, the fragment completing a group yields exactly one emission
(`some`, never more), whose bytes are the concatenation of an
ordinal-nondecreasing permutation of the group's buffered fragments — the
unique ascending order when ordinals are distinct — and the group is
removed from the table. -/
theorem c9_sorted_concat_and_removal :
    ∀ (sortFn : List partialPart → List partialPart),
    SortsByOrdinal sortFn →
    ∀ (groups : PAGroups) (e : logEntry) (m : partialLogMetadata),
    e.Partial = true → e.PartialLogMetadata = some m → m.Last = true →
    (partialAssembler.Add sortFn groups e).2 =
      some { line := ((sortFn ((groupOf groups e m).parts ++ [mkPart e m])).map
               (fun p => p.data)).flatten,
             source := (groupOf groups e m).source,
             timeNano := (groupOf groups e m).timeNano,
             gparts := (groupOf groups e m).parts ++ [mkPart e m],
             fromPartial := true } ∧
    (sortFn ((groupOf groups e m).parts ++ [mkPart e m])).Perm
      ((groupOf groups e m).parts ++ [mkPart e m]) ∧
    (sortFn ((groupOf groups e m).parts ++ [mkPart e m])).Pairwise
      (fun p q => p.ordinal ≤ q.ordinal) ∧
    alookup (partialAssembler.Add sortFn groups e).1 m.ID = none := by
  intro sortFn hf groups e m hp hm hl
  have hstep : partialAssembler.Add sortFn groups e =
      (aremove (aset groups m.ID
        { groupOf groups e m with
          parts := (groupOf groups e m).parts ++ [mkPart e m] }) m.ID,
       some { line := ((sortFn ((groupOf groups e m).parts ++ [mkPart e m])).map
                (fun p => p.data)).flatten,
              source := (groupOf groups e m).source,
              timeNano := (groupOf groups e m).timeNano,
              gparts := (groupOf groups e m).parts ++ [mkPart e m],
              fromPartial := true }) := by
    unfold partialAssembler.Add
    rw [if_neg (by rw [hp]; simp), hm]
    dsimp only
    rw [if_neg (by rw [hl]; simp)]
  refine ⟨by rw [hstep], (hf _).1, (hf _).2, ?_⟩
  rw [hstep]
  exact alookup_aremove_self _ _

/-- Witness for C9: completing a fresh group with one fragment. -/
theorem c9_witness :
    SortsByOrdinal stableSortByOrdinal ∧ e9w.Partial = true ∧
    e9w.PartialLogMetadata = some m9w ∧ m9w.Last = true ∧
    (partialAssembler.Add stableSortByOrdinal [] e9w).2 = some c9wOut ∧
    alookup (partialAssembler.Add stableSortByOrdinal [] e9w).1 m9w.ID =
      none := by
  have h := c9_sorted_concat_and_removal stableSortByOrdinal
    sortsByOrdinal_stableSort [] e9w m9w rfl rfl rfl
  exact ⟨sortsByOrdinal_stableSort, rfl, rfl, rfl, h.1, h.2.2.2⟩

/-- C6: for every event sequence on an enabled merger, every emitted
message is the separator-joined list of its constituent lines, and it is
either a single line or every constituent after the first matched the
continuation regex on arrival, with the line count within `max_lines` and
the joined byte length within `max_bytes` (the caps checked before each
append). -/
theorem c6_merged_message_invariant :
    ∀ (cfg : MergerCfg) (isCont : List Byte → Bool) (ops : List MergerOp),
    cfg.MultilineRegex = some isCont →
    ∀ m ∈ (mergerRun cfg ops).2, GoodMsg cfg isCont m := by
  intro cfg isCont ops hre m hm
  unfold mergerRun at hm
  refine mergerRun_good_aux hre ops initMergerState []
    (initMergerState_inv cfg isCont) ?_ m hm
  intro m2 h2
  exact absurd h2 (List.not_mem_nil _)

/-- Witness for C6 at a concrete two-line merge. -/
theorem c6_witness :
    c6cfg.MultilineRegex = some startsWithWhitespace ∧
    c6msg ∈ (mergerRun c6cfg c6ops).2 ∧
    GoodMsg c6cfg startsWithWhitespace c6msg :=
  ⟨rfl, by decide,
   c6_merged_message_invariant c6cfg startsWithWhitespace c6ops rfl c6msg
     (by decide)⟩

/-- C8 counterexample: patterns are not tested anchored at byte 0.  The
leftmost-occurrence pattern for byte 98 matches `abc` at offset 1, and
`StripTimestamp` returns the suffix `c` after that interior match, while
the claim's anchored reading returns `abc` unchanged. -/
theorem c8_counterexample :
    StripTimestamp (ascii "abc") [findBytePattern 98] = ascii "c" ∧
    stripSpecAnchored (ascii "abc") [findBytePattern 98] = ascii "abc" ∧
    ascii "c" ≠ ascii "abc" := by
  refine ⟨by decide, by decide, by decide⟩

/-- C8 amended: `StripTimestamp` is the leftmost-match strip: the first
pattern (in order) whose `FindIndex` matches anywhere decides; the suffix
after that match's end, with the leading separator run removed, is
returned when nonempty, and the original line is returned when that suffix
is empty or when no pattern matches.  (The built-in patterns are
self-anchored with a leading caret, so for them a match is a match at
byte 0.) -/
theorem c8_leftmost_strip :
    ∀ (line : List Byte) (ps : List TsPattern),
    StripTimestamp line ps = stripSpecLeftmost line ps := by
  intro line ps
  induction ps with
  | nil => rfl
  | cons re rest ih =>
    unfold StripTimestamp stripSpecLeftmost
    cases hre : re line with
    | none =>
      simp only [List.findSome?_cons, hre]
      exact ih
    | some se =>
      simp only [List.findSome?_cons, hre]
      rw [stripDrop_eq]
      cases hdw : (line.drop se.2).dropWhile isSepByte with
      | nil => simp
      | cons x xs => simp

/-- Computation of `ParseJSONLog` once `json.Unmarshal` has produced an
object: the result is decided by the message scan after level removal. -/
theorem parseJSONLog_some (u : List Byte → Option JObj) (cfg : JSONCfg)
    (line : List Byte) (obj : JObj)
    (hpj : cfg.ParseJSON = true) (hline : line ≠ []) (hu : u line = some obj) :
    ParseJSONLog u cfg line =
      match messageScanKey cfg obj with
      | none => none
      | some ks =>
        if ks.2 = "" then none
        else some
          { Level := (match findStringKey obj cfg.JSONLevelKeys with
              | some ls => ls.2
              | none => ""),
            Message := ks.2,
            ExtraFields := (aremove (levelRemoved cfg obj) ks.1).filterMap
              (fun kv => (flattenJVal kv.2).map (fun s => (kv.1, s))) } := by
  unfold ParseJSONLog
  rw [if_neg (by simp [hpj, hline]), hu]
  dsimp only
  unfold messageScanKey levelRemoved
  cases hfs : findStringKey obj cfg.JSONLevelKeys with
  | none =>
    dsimp only
    cases hms : findStringKey obj cfg.JSONMessageKeys with
    | none => rfl
    | some ks => rfl
  | some ls =>
    dsimp only
    cases hms : findStringKey (aremove obj ls.1) cfg.JSONMessageKeys with
    | none => rfl
    | some ks => rfl

/-- C7 amended: `ParseJSONLog` signals not-JSON exactly when parsing is
disabled, the line is empty, unmarshalling fails (parse error or
non-object), or the message scan — run on the object after level-key
removal — finds no string-valued message key or finds the empty string;
otherwise the first message key (in configured order) whose value is a
string is consumed as the body, and its key is absent from the remaining
extra fields. -/
theorem c7_not_json_iff_empty_message :
    (∀ (u : List Byte → Option JObj) (cfg : JSONCfg) (line : List Byte),
      ParseJSONLog u cfg line = none ↔
        (cfg.ParseJSON = false ∨ line = [] ∨ u line = none ∨
         ∃ obj, u line = some obj ∧ msgScanEmpty cfg obj)) ∧
    (∀ (u : List Byte → Option JObj) (cfg : JSONCfg) (line : List Byte)
       (obj : JObj) (ks : String × String),
      cfg.ParseJSON = true → line ≠ [] → u line = some obj →
      messageScanKey cfg obj = some ks → ks.2 ≠ "" →
      ∃ r, ParseJSONLog u cfg line = some r ∧ r.Message = ks.2 ∧
        alookup r.ExtraFields ks.1 = none) := by
  constructor
  · intro u cfg line
    by_cases hpj : cfg.ParseJSON = false
    · have hnone : ParseJSONLog u cfg line = none := by
        unfold ParseJSONLog
        rw [if_pos (Or.inl hpj)]
      simp [hnone, hpj]
    · have hpjt : cfg.ParseJSON = true := by
        revert hpj; cases cfg.ParseJSON <;> simp
      by_cases hline : line = []
      · subst hline
        have hnone : ParseJSONLog u cfg [] = none := by
          unfold ParseJSONLog
          rw [if_pos (Or.inr rfl)]
        simp [hnone]
      · cases hu : u line with
        | none =>
          have hnone : ParseJSONLog u cfg line = none := by
            unfold ParseJSONLog
            rw [if_neg (by tauto), hu]
          simp [hnone, hpjt, hline]
        | some obj =>
          rw [parseJSONLog_some u cfg line obj hpjt hline hu]
          constructor
          · intro hnone
            refine Or.inr (Or.inr (Or.inr ⟨obj, rfl, ?_⟩))
            intro ks hks
            rw [hks] at hnone
            dsimp only at hnone
            by_cases hempty : ks.2 = ""
            · exact hempty
            · rw [if_neg hempty] at hnone
              exact absurd hnone (by simp)
          · intro hrhs
            rcases hrhs with h | h | h | ⟨obj2, hobj2, hempty⟩
            · exact absurd hpjt (by rw [h]; simp)
            · exact absurd h hline
            · exact Option.noConfusion h
            · have hobj : obj2 = obj := (Option.some_inj.mp hobj2).symm
              subst hobj
              cases hms : messageScanKey cfg obj2 with
              | none => rfl
              | some ks =>
                dsimp only
                rw [if_pos (hempty ks hms)]
  · intro u cfg line obj ks hpj hline hu hms hne
    rw [parseJSONLog_some u cfg line obj hpj hline hu, hms]
    dsimp only
    rw [if_neg hne]
    exact ⟨_, rfl, rfl, alookup_extras_aremove (levelRemoved cfg obj) ks.1⟩

/-- C7 counterexample: the object text binding "message" to the empty
string is enabled, nonempty, unmarshals to a top-level object, and a
configured message key does map to a string value — yet `ParseJSONLog`
signals not-JSON, against the claim's "exactly when" conditions. -/
theorem c7_counterexample :
    c7cfg.ParseJSON = true ∧ c7lineCE ≠ [] ∧
    u7c c7lineCE = some c7objCE ∧
    "message" ∈ c7cfg.JSONMessageKeys ∧
    alookup c7objCE "message" = some (JVal.str "") ∧
    ParseJSONLog u7c c7cfg c7lineCE = none := by
  refine ⟨rfl, by decide, by decide, by decide, by decide, by decide⟩

/-- Witness for C7 at a concrete parsed log line with a nonempty message. -/
theorem c7_witness :
    c7cfg.ParseJSON = true ∧ c7lineW ≠ [] ∧ u7w c7lineW = some c7objW ∧
    messageScanKey c7cfg c7objW = some ("message", "slow") ∧
    ParseJSONLog u7w c7cfg c7lineW = some c7r ∧ c7r.Message = "slow" ∧
    alookup c7r.ExtraFields "message" = none := by
  obtain ⟨r, h1, h2, h3⟩ :=
    c7_not_json_iff_empty_message.2 u7w c7cfg c7lineW c7objW ("message", "slow")
      rfl (by decide) (by decide) (by decide) (by decide)
  have hcalc : ParseJSONLog u7w c7cfg c7lineW = some c7r := by decide
  have hr : r = c7r := Option.some_inj.mp (h1.symm.trans hcalc)
  subst hr
  exact ⟨rfl, by decide, by decide, by decide, h1, h2, h3⟩

end JournaldPlus
